import Mathlib

/-!
Verification of the UnrealMCP command classes
(`UnrealMCPServer/commands/base_command.py` and
`UnrealMCPServer/commands/blueprint_commands.py`).

The Python code is shallowly embedded.  Python runtime values become the
mutual inductive `PyValue`/`PyList`/`PyDict` (with `vObj` standing for an
opaque object that the standard json module cannot serialize), Python
dictionaries become ordered entry lists with Python's update semantics,
exceptions become `Except PyError`, and the standard json library — which
is not code of this repository — is modelled at the JSON document level:
`dumps` produces the JSON document, `loads` reads one back.

A second, heap-based model (`Heap`, `HValue`, `HObj`) gives Python's
object-identity semantics to dictionaries; it is used for the claims about
copy isolation (shallow `params.copy()` in `to_dict`, deep `copy.deepcopy`
in `BaseCommand.copy`), which are invisible to the pure value model.
-/

/-! ## Python values -/

/-- A Python float: a finite value (every finite double is an exact
rational, carried and round-tripped exactly; the model performs no float
arithmetic), or one of the three non-finite values.  Under Python's `==`,
`nan` is unequal to everything, itself included — see `pyEq`. -/
inductive PyFloat : Type where
  | fin : Rat → PyFloat
  | inf : PyFloat
  | neginf : PyFloat
  | nan : PyFloat
deriving DecidableEq

mutual
/-- A Python runtime value as it can appear in a command's `params`
dictionary (the source's fields are typed `str`, `Dict[str, float]` and
`Any`).  `vObj` is an opaque object with no JSON encoding (`json.dumps`
raises `TypeError` on it). -/
inductive PyValue : Type where
  | vNone : PyValue
  | vBool : Bool → PyValue
  | vInt : Int → PyValue
  | vFloat : PyFloat → PyValue
  | vStr : String → PyValue
  | vObj : PyValue
  | vList : PyList → PyValue
  | vDict : PyDict → PyValue
deriving DecidableEq
/-- Spine of a Python list value. -/
inductive PyList : Type where
  | nil : PyList
  | cons : PyValue → PyList → PyList
deriving DecidableEq
/-- Entry spine of a Python dict value: keys in insertion order. -/
inductive PyDict : Type where
  | nil : PyDict
  | cons : String → PyValue → PyDict → PyDict
deriving DecidableEq
end

/-- `d[k] = v` on a Python dict: replace the value at an existing key in
place (keeping its position), or append a new entry at the end. -/
def dictSet : PyDict → String → PyValue → PyDict
  | .nil, k, v => .cons k v .nil
  | .cons k' v' rest, k, v =>
    if k' = k then .cons k v rest else .cons k' v' (dictSet rest k v)

/-- `d.update(m)`: apply `dictSet` for each entry of `m` in order. -/
def dictUpdate : PyDict → PyDict → PyDict
  | d, .nil => d
  | d, .cons k v rest => dictUpdate (dictSet d k v) rest

/-- `d.get(k)` / `d[k]` lookup. -/
def dictGet : PyDict → String → Option PyValue
  | .nil, _ => none
  | .cons k' v rest, k => if k' = k then some v else dictGet rest k

/-- `k in d`. -/
def dictHasKey : PyDict → String → Bool
  | .nil, _ => false
  | .cons k' _ rest, k => k' = k || dictHasKey rest k

/-- Convenience constructor for dict literals. -/
def PyDict.ofList : List (String × PyValue) → PyDict
  | [] => .nil
  | e :: es => .cons e.1 e.2 (PyDict.ofList es)

mutual
/-- Whether `json.dumps` succeeds on the value (no opaque object anywhere
inside).  Every float is serializable — with the default `allow_nan=True`,
`json.dumps` emits the tokens `NaN`/`Infinity`/`-Infinity` for the
non-finite values instead of raising.  On the finite trees of this model
this is exactly the condition checked by
`BaseCommand._validate_json_serializable`; the companion check
`_check_for_circular_references` can never fire on a tree. -/
def PyValue.serializable : PyValue → Bool
  | .vNone => true
  | .vBool _ => true
  | .vInt _ => true
  | .vFloat _ => true
  | .vStr _ => true
  | .vObj => false
  | .vList xs => xs.serializable
  | .vDict es => es.serializable
/-- `PyValue.serializable` on every element of a list. -/
def PyList.serializable : PyList → Bool
  | .nil => true
  | .cons x xs => x.serializable && xs.serializable
/-- `PyValue.serializable` on every value of a dict. -/
def PyDict.serializable : PyDict → Bool
  | .nil => true
  | .cons _ v rest => v.serializable && rest.serializable
end

/-- `isinstance(v, dict)`, returning the dict payload. -/
def PyValue.asDict : PyValue → Option PyDict
  | .vDict d => some d
  | _ => none

/-! ## The JSON document model of the standard json library -/

mutual
/-- A JSON document (the output of `json.dumps` viewed at the document
level; the text rendering is the standard library's concern). -/
inductive Json : Type where
  | null : Json
  | jBool : Bool → Json
  | jNum : Int → Json
  | jFloat : PyFloat → Json
  | jStr : String → Json
  | jArr : JsonList → Json
  | jObj : JsonObj → Json
deriving DecidableEq
/-- Spine of a JSON array. -/
inductive JsonList : Type where
  | nil : JsonList
  | cons : Json → JsonList → JsonList
deriving DecidableEq
/-- Member spine of a JSON object. -/
inductive JsonObj : Type where
  | nil : JsonObj
  | cons : String → Json → JsonObj → JsonObj
deriving DecidableEq
end

mutual
/-- `json.dumps`: `None`/`bool`/`int`/`float`/`str`/`list`/`dict` map to
their JSON counterparts — non-finite floats become the non-standard
tokens `NaN`/`Infinity`/`-Infinity` (default `allow_nan=True`), finite
floats round-trip exactly via the shortest-repr rule; an opaque object
raises `TypeError` (here: `none`). -/
def dumps : PyValue → Option Json
  | .vNone => some .null
  | .vBool b => some (.jBool b)
  | .vInt n => some (.jNum n)
  | .vFloat f => some (.jFloat f)
  | .vStr s => some (.jStr s)
  | .vObj => none
  | .vList xs => (dumpsList xs).map .jArr
  | .vDict es => (dumpsDict es).map .jObj
/-- `json.dumps` elementwise on a list. -/
def dumpsList : PyList → Option JsonList
  | .nil => some .nil
  | .cons x xs =>
    match dumps x, dumpsList xs with
    | some j, some js => some (.cons j js)
    | _, _ => none
/-- `json.dumps` memberwise on a dict. -/
def dumpsDict : PyDict → Option JsonObj
  | .nil => some .nil
  | .cons k v rest =>
    match dumps v, dumpsDict rest with
    | some j, some js => some (.cons k j js)
    | _, _ => none
end

mutual
/-- `json.loads` on a document: the inverse reading. -/
def loads : Json → PyValue
  | .null => .vNone
  | .jBool b => .vBool b
  | .jNum n => .vInt n
  | .jFloat f => .vFloat f
  | .jStr s => .vStr s
  | .jArr js => .vList (loadsList js)
  | .jObj ms => .vDict (loadsObj ms)
/-- `json.loads` elementwise on an array. -/
def loadsList : JsonList → PyList
  | .nil => .nil
  | .cons j js => .cons (loads j) (loadsList js)
/-- `json.loads` memberwise on an object. -/
def loadsObj : JsonObj → PyDict
  | .nil => .nil
  | .cons k j ms => .cons k (loads j) (loadsObj ms)
end

/-! ## Python's `==` on runtime values

The round-trip claim compares the parsed mapping with `to_dict`'s mapping
using Python's `==`.  Numeric types (`bool`, `int`, `float`) compare by
exact value across types; `nan` is unequal to everything, itself
included; lists compare elementwise in order; dicts compare as unordered
key-to-value maps (length, then per-key lookup, as CPython does).
CPython's container identity shortcut (`x is y or x == y`) is invisible
here: the claims only ever compare a freshly parsed value against a
distinct original, where the shortcut never fires. -/

/-- The exact numeric value of a Python number. -/
inductive NumV : Type where
  | rat : Rat → NumV
  | inf : NumV
  | neginf : NumV
  | nan : NumV
deriving DecidableEq

/-- The numeric value of a float. -/
def numOfFloat : PyFloat → NumV
  | .fin q => .rat q
  | .inf => .inf
  | .neginf => .neginf
  | .nan => .nan

/-- `==` on numeric values: exact comparison, `nan` equal to nothing. -/
def NumV.peq : NumV → NumV → Bool
  | .rat q, .rat q2 => q = q2
  | .inf, .inf => true
  | .neginf, .neginf => true
  | _, _ => false

/-- The numeric view of a value, when it is a `bool`, `int` or `float`
(Python's `True == 1 == 1.0`). -/
def PyValue.asNum : PyValue → Option NumV
  | .vBool b => some (.rat (if b then 1 else 0))
  | .vInt n => some (.rat (n : Rat))
  | .vFloat f => some (numOfFloat f)
  | _ => none

/-- `==` between a numeric value and an arbitrary value. -/
def numEq (x : NumV) (b : PyValue) : Bool :=
  match b.asNum with
  | some y => NumV.peq x y
  | none => false

/-- `len(d)`. -/
def dictLen : PyDict → Nat
  | .nil => 0
  | .cons _ _ rest => dictLen rest + 1

/-- Keys are pairwise distinct (every dict built by Python satisfies
this). -/
def nodupKeys : PyDict → Bool
  | .nil => true
  | .cons k _ rest => !(dictHasKey rest k) && nodupKeys rest

/-- The entry `(k, v)` occurs in the dict. -/
def entryMem (k : String) (v : PyValue) : PyDict → Prop
  | .nil => False
  | .cons k2 v2 rest => (k = k2 ∧ v = v2) ∨ entryMem k v rest

mutual
/-- Python's `==` on two runtime values (see the section comment). -/
def pyEq : PyValue → PyValue → Bool
  | .vNone, .vNone => true
  | .vBool x, b => numEq (.rat (if x then 1 else 0)) b
  | .vInt n, b => numEq (.rat (n : Rat)) b
  | .vFloat f, b => numEq (numOfFloat f) b
  | .vStr s, .vStr s2 => s = s2
  | .vObj, .vObj => true
  | .vList xs, .vList ys => pyEqList xs ys
  | .vDict es, .vDict fs => dictLen es = dictLen fs && pyEqEntries es fs
  | _, _ => false
/-- `==` on lists: elementwise, in order. -/
def pyEqList : PyList → PyList → Bool
  | .nil, .nil => true
  | .cons x xs, .cons y ys => pyEq x y && pyEqList xs ys
  | _, _ => false
/-- Per-key comparison of the first dict's entries against the second
dict (the order-insensitive half of dict `==`; CPython checks length
first, then looks each left key up on the right). -/
def pyEqEntries : PyDict → PyDict → Bool
  | .nil, _ => true
  | .cons k v rest, fs =>
    (match dictGet fs k with | some w => pyEq v w | none => false) &&
      pyEqEntries rest fs
end

mutual
/-- The value contains no NaN, and every dict inside has unique keys —
the conditions under which a Python value compares `==` to (a structural
copy of) itself. -/
def PyValue.eqSafe : PyValue → Bool
  | .vFloat .nan => false
  | .vList xs => xs.eqSafe
  | .vDict es => nodupKeys es && es.eqSafe
  | _ => true
/-- `eqSafe` on every element of a list. -/
def PyList.eqSafe : PyList → Bool
  | .nil => true
  | .cons x xs => x.eqSafe && xs.eqSafe
/-- `eqSafe` on every value of a dict. -/
def PyDict.eqSafe : PyDict → Bool
  | .nil => true
  | .cons _ v rest => v.eqSafe && rest.eqSafe
end

/-! ## Wire-type derivation (`BaseCommand.type`) -/

/-- The regex character class `[A-Z]`. -/
def isUpperAZ (c : Char) : Bool := 'A' ≤ c && c ≤ 'Z'

/-- The regex character class `[a-z]`. -/
def isLowerAZ (c : Char) : Bool := 'a' ≤ c && c ≤ 'z'

/-- The regex character class `[0-9]`. -/
def isDigit09 (c : Char) : Bool := '0' ≤ c && c ≤ '9'

/-- Fuelled worker for `re.sub('(.)([A-Z][a-z]+)', r'\1_\2', s)`: scan left
to right for a character followed by an upper-case letter and a maximal
nonempty run of lower-case letters, insert an underscore after the first
character, and continue after the match.  The fuel only drives the
recursion; `cs.length` fuel always suffices.  (`.` is modelled as any
character; class identifiers contain no newline.) -/
def sub1Go : Nat → List Char → List Char
  | 0, cs => cs
  | _ + 1, [] => []
  | _ + 1, [c] => [c]
  | f + 1, c :: u :: rest =>
    if isUpperAZ u && (match rest with | l :: _ => isLowerAZ l | [] => false) then
      c :: '_' :: u :: rest.takeWhile isLowerAZ ++ sub1Go f (rest.dropWhile isLowerAZ)
    else
      c :: sub1Go f (u :: rest)

/-- First regex pass of `BaseCommand.type`. -/
def sub1 (cs : List Char) : List Char := sub1Go cs.length cs

/-- Second regex pass, `re.sub('([a-z0-9])([A-Z])', r'\1_\2', s)`: insert
an underscore between a lower-case letter or digit and an upper-case
letter, continuing after each match. -/
def sub2 : List Char → List Char
  | [] => []
  | [c] => [c]
  | a :: b :: rest =>
    if (isLowerAZ a || isDigit09 a) && isUpperAZ b then
      a :: '_' :: b :: sub2 rest
    else
      a :: sub2 (b :: rest)

/-- ASCII lower-casing of one character (`str.lower()` on identifiers). -/
def lowerChar (c : Char) : Char :=
  if isUpperAZ c then Char.ofNat (c.toNat + 32) else c

/-- `class_name.endswith('Command')`, computed on the character list. -/
def endsWithCommand (s : String) : Bool :=
  s.data.reverse.take 7 = "Command".data.reverse

/-- `class_name[:-7]` when the name ends with `'Command'`. -/
def stripCommandSuffix (s : String) : String :=
  if endsWithCommand s then String.mk (s.data.take (s.data.length - 7)) else s

/-- Both regex passes followed by lower-casing. -/
def camelToSnake (s : String) : String :=
  String.mk ((sub2 (sub1 s.data)).map lowerChar)

/-- The `BaseCommand.type` property applied to a class name: strip a
trailing `'Command'`, run the two `re.sub` passes, lower-case. -/
def snakeCase (s : String) : String :=
  camelToSnake (stripCommandSuffix s)

/-! ## The command classes (pure value model)

Each `mk…` function is the translation of constructing the dataclass:
field assignment followed by the variant's `__post_init__`, with
`ValueError`/`AttributeError` surfaced through `Except`.  The
`warnings.warn` calls of `CreateBlueprintCommand.validate` and
`AddComponentToBlueprintCommand.validate` are non-fatal side effects with
no influence on the constructed state and are not modelled. -/

/-- A raised Python exception. -/
inductive PyError : Type where
  | valueError : String → PyError
  | attributeError : String → PyError
deriving DecidableEq

/-- A whitespace character as stripped by Python's `str.strip()`. -/
def isPySpace (c : Char) : Bool :=
  c = ' ' || c = '\t' || c = '\n' || c = '\r' || c = '\x0b' || c = '\x0c'

/-- Python's `not s.strip()`: blank (empty or whitespace only) after
trimming. -/
def isBlank (s : String) : Bool := s.data.all isPySpace

/-- `BaseCommand`: just the `params` dictionary. -/
structure BaseCommand where
  params : PyDict
deriving DecidableEq

/-- `CreateBlueprintCommand`. -/
structure CreateBlueprintCommand where
  name : String
  parent_class : String
  params : PyDict
deriving DecidableEq

/-- `AddComponentToBlueprintCommand`. -/
structure AddComponentToBlueprintCommand where
  blueprint_name : String
  component_type : String
  component_name : String
  params : PyDict
deriving DecidableEq

/-- `CompileBlueprintCommand`. -/
structure CompileBlueprintCommand where
  blueprint_name : String
  params : PyDict
deriving DecidableEq

/-- `SetBlueprintPropertyCommand` (`property_value` is annotated `Any`). -/
structure SetBlueprintPropertyCommand where
  blueprint_name : String
  property_name : String
  property_value : PyValue
  property_type : String
  params : PyDict
deriving DecidableEq

/-- `SetStaticMeshPropertiesCommand` (`location`, `rotation`, `scale` are
`Optional`; their runtime payload is dynamic). -/
structure SetStaticMeshPropertiesCommand where
  blueprint_name : String
  component_name : String
  mesh_path : String
  location : Option PyValue
  rotation : Option PyValue
  scale : Option PyValue
  params : PyDict
deriving DecidableEq

/-- `BaseCommand.__post_init__`'s opening normalization:
`if not isinstance(self.params, dict): self.params = {}`. -/
def normParams : PyValue → PyDict
  | .vDict d => d
  | _ => .nil

/-- Constructing `BaseCommand(params=params0)`: `__post_init__` replaces a
non-dict container by `{}`, then `validate` checks the container is a dict
(now always true) and that it is JSON-encodable. -/
def mkBaseCommand (params0 : PyValue) : Except PyError BaseCommand :=
  if (normParams params0).serializable then .ok ⟨normParams params0⟩
  else .error (.valueError
    "BaseCommand validation failed: Command parameters are not JSON serializable")

/-- Constructing `CreateBlueprintCommand`: its `__post_init__` first runs
`self.params.update({'name': …, 'parent_class': …})` (an `AttributeError`
if the container is not a dict), then `super().__post_init__()` runs
`CreateBlueprintCommand.validate`: blank `name` and blank `parent_class`
are `ValueError`s, then the base encodability check runs on the updated
dict. -/
def mkCreateBlueprintCommand (name parent_class : String) :
    PyValue → Except PyError CreateBlueprintCommand
  | .vDict d =>
    let d1 := dictUpdate d (.cons "name" (.vStr name)
      (.cons "parent_class" (.vStr parent_class) .nil))
    if isBlank name then
      .error (.valueError "CreateBlueprintCommand validation failed: name cannot be empty")
    else if isBlank parent_class then
      .error (.valueError
        "CreateBlueprintCommand validation failed: parent_class cannot be empty")
    else if d1.serializable then .ok ⟨name, parent_class, d1⟩
    else .error (.valueError
      "CreateBlueprintCommand validation failed: Command parameters are not JSON serializable")
  | _ => .error (.attributeError "object has no attribute update")

/-- Constructing `AddComponentToBlueprintCommand`: update with the three
fields first, then validate (blank `blueprint_name` or `component_type`
are `ValueError`s), then the base encodability check. -/
def mkAddComponentToBlueprintCommand
    (blueprint_name component_type component_name : String) :
    PyValue → Except PyError AddComponentToBlueprintCommand
  | .vDict d =>
    let d1 := dictUpdate d (.cons "blueprint_name" (.vStr blueprint_name)
      (.cons "component_type" (.vStr component_type)
        (.cons "component_name" (.vStr component_name) .nil)))
    if isBlank blueprint_name then
      .error (.valueError
        "AddComponentToBlueprintCommand validation failed: blueprint_name cannot be empty")
    else if isBlank component_type then
      .error (.valueError
        "AddComponentToBlueprintCommand validation failed: component_type cannot be empty")
    else if d1.serializable then
      .ok ⟨blueprint_name, component_type, component_name, d1⟩
    else .error (.valueError
      "AddComponentToBlueprintCommand validation failed: Command parameters are not JSON serializable")
  | _ => .error (.attributeError "object has no attribute update")

/-- Constructing `CompileBlueprintCommand`: its `__post_init__` calls
`super().__post_init__()` FIRST — so a non-dict container is replaced by
`{}` and only the initial container is validated — and copies
`blueprint_name` into `params` afterwards.  The class defines no
`validate` override, so no required-field check runs. -/
def mkCompileBlueprintCommand (blueprint_name : String) (params0 : PyValue) :
    Except PyError CompileBlueprintCommand :=
  if (normParams params0).serializable then
    .ok ⟨blueprint_name,
      dictUpdate (normParams params0) (.cons "blueprint_name" (.vStr blueprint_name) .nil)⟩
  else .error (.valueError
    "CompileBlueprintCommand validation failed: Command parameters are not JSON serializable")

/-- Constructing `SetBlueprintPropertyCommand`: `super().__post_init__()`
runs first (validating only the initial container), then all four fields —
including the arbitrary `property_value` — are copied into `params` with
no further validation.  No `validate` override exists. -/
def mkSetBlueprintPropertyCommand
    (blueprint_name property_name : String) (property_value : PyValue)
    (property_type : String) (params0 : PyValue) :
    Except PyError SetBlueprintPropertyCommand :=
  if (normParams params0).serializable then
    .ok ⟨blueprint_name, property_name, property_value, property_type,
      dictUpdate (normParams params0) (.cons "blueprint_name" (.vStr blueprint_name)
        (.cons "property_name" (.vStr property_name)
          (.cons "property_value" property_value
            (.cons "property_type" (.vStr property_type) .nil))))⟩
  else .error (.valueError
    "SetBlueprintPropertyCommand validation failed: Command parameters are not JSON serializable")

/-- Constructing `SetStaticMeshPropertiesCommand`: `super().__post_init__()`
runs first (validating only the initial container); then a params dict is
built from the three string fields, each optional field is added only when
it is not `None`, and `params.update` applies it.  No `validate` override
exists. -/
def mkSetStaticMeshPropertiesCommand
    (blueprint_name component_name mesh_path : String)
    (location rotation scale : Option PyValue) (params0 : PyValue) :
    Except PyError SetStaticMeshPropertiesCommand :=
  if (normParams params0).serializable then
    let pd0 : PyDict := .cons "blueprint_name" (.vStr blueprint_name)
      (.cons "component_name" (.vStr component_name)
        (.cons "mesh_path" (.vStr mesh_path) .nil))
    let pd1 := match location with | some l => dictSet pd0 "location" l | none => pd0
    let pd2 := match rotation with | some r => dictSet pd1 "rotation" r | none => pd1
    let pd3 := match scale with | some sc => dictSet pd2 "scale" sc | none => pd2
    .ok ⟨blueprint_name, component_name, mesh_path, location, rotation, scale,
      dictUpdate (normParams params0) pd3⟩
  else .error (.valueError
    "SetStaticMeshPropertiesCommand validation failed: Command parameters are not JSON serializable")

/-! `type`, `to_dict` and `to_json` for each class.  In the pure value
model `self.params.copy()` is the identity on the value (the aliasing
consequences of its shallowness are treated in the heap model below), so
`to_dict` returns `{'type': self.type, 'params': self.params}` and
`to_json` is `json.dumps` of it. -/

/-- `BaseCommand.type`. -/
def BaseCommand.type (_ : BaseCommand) : String := snakeCase "BaseCommand"

/-- `BaseCommand.to_dict`. -/
def BaseCommand.to_dict (c : BaseCommand) : PyValue :=
  .vDict (.cons "type" (.vStr c.type) (.cons "params" (.vDict c.params) .nil))

/-- `BaseCommand.to_json`. -/
def BaseCommand.to_json (c : BaseCommand) : Option Json := dumps c.to_dict

/-- `type` on `CreateBlueprintCommand`. -/
def CreateBlueprintCommand.type (_ : CreateBlueprintCommand) : String :=
  snakeCase "CreateBlueprintCommand"

/-- `to_dict` on `CreateBlueprintCommand`. -/
def CreateBlueprintCommand.to_dict (c : CreateBlueprintCommand) : PyValue :=
  .vDict (.cons "type" (.vStr c.type) (.cons "params" (.vDict c.params) .nil))

/-- `to_json` on `CreateBlueprintCommand`. -/
def CreateBlueprintCommand.to_json (c : CreateBlueprintCommand) : Option Json :=
  dumps c.to_dict

/-- `type` on `AddComponentToBlueprintCommand`. -/
def AddComponentToBlueprintCommand.type (_ : AddComponentToBlueprintCommand) : String :=
  snakeCase "AddComponentToBlueprintCommand"

/-- `to_dict` on `AddComponentToBlueprintCommand`. -/
def AddComponentToBlueprintCommand.to_dict (c : AddComponentToBlueprintCommand) : PyValue :=
  .vDict (.cons "type" (.vStr c.type) (.cons "params" (.vDict c.params) .nil))

/-- `to_json` on `AddComponentToBlueprintCommand`. -/
def AddComponentToBlueprintCommand.to_json (c : AddComponentToBlueprintCommand) : Option Json :=
  dumps c.to_dict

/-- `type` on `CompileBlueprintCommand`. -/
def CompileBlueprintCommand.type (_ : CompileBlueprintCommand) : String :=
  snakeCase "CompileBlueprintCommand"

/-- `to_dict` on `CompileBlueprintCommand`. -/
def CompileBlueprintCommand.to_dict (c : CompileBlueprintCommand) : PyValue :=
  .vDict (.cons "type" (.vStr c.type) (.cons "params" (.vDict c.params) .nil))

/-- `to_json` on `CompileBlueprintCommand`. -/
def CompileBlueprintCommand.to_json (c : CompileBlueprintCommand) : Option Json :=
  dumps c.to_dict

/-- `type` on `SetBlueprintPropertyCommand`. -/
def SetBlueprintPropertyCommand.type (_ : SetBlueprintPropertyCommand) : String :=
  snakeCase "SetBlueprintPropertyCommand"

/-- `to_dict` on `SetBlueprintPropertyCommand`. -/
def SetBlueprintPropertyCommand.to_dict (c : SetBlueprintPropertyCommand) : PyValue :=
  .vDict (.cons "type" (.vStr c.type) (.cons "params" (.vDict c.params) .nil))

/-- `to_json` on `SetBlueprintPropertyCommand`. -/
def SetBlueprintPropertyCommand.to_json (c : SetBlueprintPropertyCommand) : Option Json :=
  dumps c.to_dict

/-- `type` on `SetStaticMeshPropertiesCommand`. -/
def SetStaticMeshPropertiesCommand.type (_ : SetStaticMeshPropertiesCommand) : String :=
  snakeCase "SetStaticMeshPropertiesCommand"

/-- `to_dict` on `SetStaticMeshPropertiesCommand`. -/
def SetStaticMeshPropertiesCommand.to_dict (c : SetStaticMeshPropertiesCommand) : PyValue :=
  .vDict (.cons "type" (.vStr c.type) (.cons "params" (.vDict c.params) .nil))

/-- `to_json` on `SetStaticMeshPropertiesCommand`. -/
def SetStaticMeshPropertiesCommand.to_json (c : SetStaticMeshPropertiesCommand) : Option Json :=
  dumps c.to_dict

/-! ## Heap model (object identity for mutable containers)

Python dictionaries and lists are mutable objects with identity; `HValue`
is an immediate value or a reference into a `Heap` mapping addresses to
container objects.  `mutate` is an arbitrary in-place mutation of one
container (covering `d[k] = v`, `del`, `append`, …).  `val` reads the
value tree reachable from a handle (fuelled; the fuel only limits depth,
so any sufficiently large fuel gives the same result — see `val_le`). -/

/-- A Python runtime value in the heap model: an immediate, or a
reference to a container object. -/
inductive HValue : Type where
  | hNone : HValue
  | hBool : Bool → HValue
  | hInt : Int → HValue
  | hFloat : PyFloat → HValue
  | hStr : String → HValue
  | hObj : HValue
  | ref : Nat → HValue
deriving DecidableEq

/-- A container object stored in the heap: a dict or a list. -/
inductive HObj : Type where
  | dictObj : List (String × HValue) → HObj
  | listObj : List HValue → HObj
deriving DecidableEq

/-- The heap: an address-indexed store of container objects, plus the
next fresh address. -/
structure Heap where
  store : List (Nat × HObj)
  next : Nat
deriving DecidableEq

/-- The object at address `a`, if allocated. -/
def heapGet (h : Heap) (a : Nat) : Option HObj :=
  (h.store.find? (fun e => e.1 = a)).map (fun e => e.2)

/-- Allocate a new container object at the next fresh address. -/
def alloc (h : Heap) (o : HObj) : Heap × Nat :=
  (⟨h.store ++ [(h.next, o)], h.next + 1⟩, h.next)

/-- Mutate the container object stored at address `a` in place (the
address keeps its identity; every alias observes the change). -/
def mutate (h : Heap) (a : Nat) (o : HObj) : Heap :=
  ⟨h.store.map (fun e => if e.1 = a then (a, o) else e), h.next⟩

/-- Association lookup in a heap dict object. -/
def hentGet : List (String × HValue) → String → Option HValue
  | [], _ => none
  | e :: es, k => if e.1 = k then some e.2 else hentGet es k

/-- `d[k]` through a handle: read a key of the dict object at `a`. -/
def readKey (h : Heap) (a : Nat) (k : String) : Option HValue :=
  match heapGet h a with
  | some (.dictObj es) => hentGet es k
  | _ => none

mutual
/-- Read the value tree reachable from a handle, with fuel decremented at
every step; `none` means the fuel ran out (or a dangling reference). -/
def val : Nat → Heap → HValue → Option PyValue
  | _, _, .hNone => some .vNone
  | _, _, .hBool b => some (.vBool b)
  | _, _, .hInt n => some (.vInt n)
  | _, _, .hFloat f => some (.vFloat f)
  | _, _, .hStr s => some (.vStr s)
  | _, _, .hObj => some .vObj
  | 0, _, .ref _ => none
  | f + 1, h, .ref a =>
    match heapGet h a with
    | some (.dictObj es) => (valEntries f h es).map .vDict
    | some (.listObj xs) => (valList f h xs).map .vList
    | none => none
termination_by structural f => f
/-- `val` elementwise on a heap list object's elements. -/
def valList : Nat → Heap → List HValue → Option PyList
  | _, _, [] => some .nil
  | 0, _, _ :: _ => none
  | f + 1, h, x :: xs =>
    match val f h x, valList f h xs with
    | some t, some ts => some (.cons t ts)
    | _, _ => none
termination_by structural f => f
/-- `val` memberwise on a heap dict object's entries. -/
def valEntries : Nat → Heap → List (String × HValue) → Option PyDict
  | _, _, [] => some .nil
  | 0, _, _ :: _ => none
  | f + 1, h, e :: es =>
    match val f h e.2, valEntries f h es with
    | some t, some ts => some (.cons e.1 t ts)
    | _, _ => none
termination_by structural f => f
end

mutual
/-- Fuel sufficient for `val` to read back a tree of this shape. -/
def PyValue.fsize : PyValue → Nat
  | .vList xs => xs.fsize + 1
  | .vDict es => es.fsize + 1
  | _ => 1
/-- `fsize` over a list spine. -/
def PyList.fsize : PyList → Nat
  | .nil => 1
  | .cons x xs => x.fsize + xs.fsize + 1
/-- `fsize` over a dict spine. -/
def PyDict.fsize : PyDict → Nat
  | .nil => 1
  | .cons _ v rest => v.fsize + rest.fsize + 1
end

mutual
/-- Rebuild a value tree as fresh container objects in the heap.  This is
the net effect of `copy.deepcopy` on the observable value: an isomorphic
structure sharing no container with anything previously allocated (the
real implementation additionally memoizes shared substructure, which is
invisible at the value level). -/
def allocTree : Heap → PyValue → Heap × HValue
  | h, .vNone => (h, .hNone)
  | h, .vBool b => (h, .hBool b)
  | h, .vInt n => (h, .hInt n)
  | h, .vFloat f => (h, .hFloat f)
  | h, .vStr s => (h, .hStr s)
  | h, .vObj => (h, .hObj)
  | h, .vList xs =>
    let (h1, ys) := allocList h xs
    let (h2, a) := alloc h1 (.listObj ys)
    (h2, .ref a)
  | h, .vDict es =>
    let (h1, hes) := allocEntries h es
    let (h2, a) := alloc h1 (.dictObj hes)
    (h2, .ref a)
/-- `allocTree` elementwise on a list spine. -/
def allocList : Heap → PyList → Heap × List HValue
  | h, .nil => (h, [])
  | h, .cons x xs =>
    let (h1, y) := allocTree h x
    let (h2, ys) := allocList h1 xs
    (h2, y :: ys)
/-- `allocTree` memberwise on a dict spine. -/
def allocEntries : Heap → PyDict → Heap × List (String × HValue)
  | h, .nil => (h, [])
  | h, .cons k v rest =>
    let (h1, y) := allocTree h v
    let (h2, ys) := allocEntries h1 rest
    (h2, (k, y) :: ys)
end

/-- `copy.deepcopy` of the container at handle `v`: read the value tree
(with fuel `f`) and rebuild it in fresh storage. -/
def deepcopy (f : Nat) (h : Heap) (v : HValue) : Option (Heap × HValue) :=
  (val f h v).map (fun t => allocTree h t)

/-- `self.params.copy()` inside `BaseCommand.to_dict`: a SHALLOW copy — a
fresh dict object with the same entries, so nested references stay
shared. -/
def shallowCopyParams (h : Heap) (p : Nat) : Option (Heap × Nat) :=
  match heapGet h p with
  | some o => some (alloc h o)
  | none => none

/-- The net effect of `BaseCommand.copy` on the duplicate's `params`:
all fields including `params` are deep-copied, the duplicate is rebuilt
through the constructor, and its `params` is then overwritten with the
deep copy — so the duplicate's `params` handle is `deepcopy` of the
original's. -/
def copyCmdParams (f : Nat) (h : Heap) (p : Nat) : Option (Heap × HValue) :=
  deepcopy f h (.ref p)

/-- References of a heap value lie in the address set `S`. -/
def HValue.refsIn (S : Nat → Prop) : HValue → Prop
  | .ref a => S a
  | _ => True

/-- References of a container object lie in `S`. -/
def HObj.refsIn (S : Nat → Prop) : HObj → Prop
  | .dictObj es => ∀ e ∈ es, e.2.refsIn S
  | .listObj xs => ∀ x ∈ xs, x.refsIn S

/-- Well-formed heap: every allocated address is below `next` and every
stored reference is allocated below `next`. -/
def Heap.WF (h : Heap) : Prop :=
  (∀ e ∈ h.store, e.1 < h.next) ∧ (∀ e ∈ h.store, e.2.refsIn (fun a => a < h.next))

/-- `h'` extends `h`: same objects, plus fresh ones at addresses ≥
`h.next`. -/
def Heap.Extends (h h' : Heap) : Prop :=
  h.next ≤ h'.next ∧
    ∃ tail, h'.store = h.store ++ tail ∧ ∀ e ∈ tail, h.next ≤ e.1

/-- `h` and `h'` store the same objects on the address set `S`. -/
def agreesOn (S : Nat → Prop) (h h' : Heap) : Prop :=
  ∀ a, S a → heapGet h' a = heapGet h a

/-- Every object at an address of `S` has its references inside `S`. -/
def closedOn (S : Nat → Prop) (h : Heap) : Prop :=
  ∀ a, S a → ∀ o, heapGet h a = some o → o.refsIn S

/-- Every object `h'` holds at a fresh address (≥ `h.next`) refers only to
fresh addresses: the region written by a copy is self-contained. -/
def freshClosed (h h' : Heap) : Prop :=
  ∀ a, h.next ≤ a → ∀ o, heapGet h' a = some o →
    o.refsIn (fun b => h.next ≤ b ∧ b < h'.next)

instance (S : Nat → Prop) [DecidablePred S] : ∀ v : HValue, Decidable (v.refsIn S)
  | .hNone => isTrue trivial
  | .hBool _ => isTrue trivial
  | .hInt _ => isTrue trivial
  | .hFloat _ => isTrue trivial
  | .hStr _ => isTrue trivial
  | .hObj => isTrue trivial
  | .ref a => (inferInstance : Decidable (S a))

instance (S : Nat → Prop) [DecidablePred S] : ∀ o : HObj, Decidable (o.refsIn S)
  | .dictObj es => (inferInstance : Decidable (∀ e ∈ es, HValue.refsIn S e.2))
  | .listObj xs => (inferInstance : Decidable (∀ x ∈ xs, HValue.refsIn S x))

instance (h : Heap) : Decidable h.WF :=
  decidable_of_iff
    ((∀ e ∈ h.store, e.1 < h.next) ∧
      (∀ e ∈ h.store, e.2.refsIn (fun a => a < h.next)))
    Iff.rfl

/-! ## Lemmas: Python dict operations -/

theorem dictGet_dictSet_self : ∀ (d : PyDict) (k : String) (v : PyValue),
    dictGet (dictSet d k v) k = some v
  | .nil, k, v => by simp [dictSet, dictGet]
  | .cons k' v' rest, k, v => by
    by_cases h : k' = k
    · simp [dictSet, h, dictGet]
    · simp [dictSet, h, dictGet, dictGet_dictSet_self rest k v]

theorem dictGet_dictSet_ne : ∀ (d : PyDict) (k k'' : String) (v : PyValue),
    k'' ≠ k → dictGet (dictSet d k v) k'' = dictGet d k''
  | .nil, k, k'', v, hne => by
    have h1 : ¬(k = k'') := fun hh => hne hh.symm
    simp [dictSet, dictGet, h1]
  | .cons k' v' rest, k, k'', v, hne => by
    by_cases h : k' = k
    · have h1 : ¬(k = k'') := fun hh => hne hh.symm
      have h2 : ¬(k' = k'') := fun hh => h1 (h.symm.trans hh)
      simp [dictSet, h, dictGet, h1, h2]
    · by_cases h2 : k' = k''
      · simp [dictSet, h, dictGet, h2, hne]
      · simp [dictSet, h, dictGet, h2, dictGet_dictSet_ne rest k k'' v hne]

theorem serializable_dictSet : ∀ (d : PyDict) (k : String) (v : PyValue),
    d.serializable = true → v.serializable = true → (dictSet d k v).serializable = true
  | .nil, k, v, _, hv => by simp [dictSet, PyDict.serializable, hv]
  | .cons k' v' rest, k, v, hd, hv => by
    simp only [PyDict.serializable, Bool.and_eq_true] at hd
    by_cases h : k' = k
    · simp [dictSet, h, PyDict.serializable, hv, hd.2]
    · simp [dictSet, h, PyDict.serializable, hd.1,
        serializable_dictSet rest k v hd.2 hv]

/-! ## Lemmas: the JSON round trip -/

mutual
theorem loads_of_dumps : ∀ (v : PyValue) (j : Json), dumps v = some j → loads j = v
  | .vNone, j, h => by
    simp only [dumps, Option.some.injEq] at h
    subst h; rfl
  | .vBool b, j, h => by
    simp only [dumps, Option.some.injEq] at h
    subst h; rfl
  | .vInt n, j, h => by
    simp only [dumps, Option.some.injEq] at h
    subst h; rfl
  | .vFloat f, j, h => by
    simp only [dumps, Option.some.injEq] at h
    subst h; rfl
  | .vStr s, j, h => by
    simp only [dumps, Option.some.injEq] at h
    subst h; rfl
  | .vObj, j, h => by simp [dumps] at h
  | .vList xs, j, h => by
    simp only [dumps, Option.map_eq_some'] at h
    obtain ⟨js, hjs, rfl⟩ := h
    simp [loads, loadsList_of_dumpsList xs js hjs]
  | .vDict es, j, h => by
    simp only [dumps, Option.map_eq_some'] at h
    obtain ⟨ms, hms, rfl⟩ := h
    simp [loads, loadsObj_of_dumpsDict es ms hms]
theorem loadsList_of_dumpsList : ∀ (xs : PyList) (js : JsonList),
    dumpsList xs = some js → loadsList js = xs
  | .nil, js, h => by
    simp only [dumpsList, Option.some.injEq] at h
    subst h; rfl
  | .cons x xs, js, h => by
    simp only [dumpsList] at h
    cases hx : dumps x with
    | none => rw [hx] at h; simp at h
    | some j =>
      cases hxs : dumpsList xs with
      | none => rw [hx, hxs] at h; simp at h
      | some js' =>
        rw [hx, hxs] at h
        simp only [Option.some.injEq] at h
        subst h
        simp [loadsList, loads_of_dumps x j hx, loadsList_of_dumpsList xs js' hxs]
theorem loadsObj_of_dumpsDict : ∀ (es : PyDict) (ms : JsonObj),
    dumpsDict es = some ms → loadsObj ms = es
  | .nil, ms, h => by
    simp only [dumpsDict, Option.some.injEq] at h
    subst h; rfl
  | .cons k v rest, ms, h => by
    simp only [dumpsDict] at h
    cases hv : dumps v with
    | none => rw [hv] at h; simp at h
    | some j =>
      cases hrest : dumpsDict rest with
      | none => rw [hv, hrest] at h; simp at h
      | some ms' =>
        rw [hv, hrest] at h
        simp only [Option.some.injEq] at h
        subst h
        simp [loadsObj, loads_of_dumps v j hv, loadsObj_of_dumpsDict rest ms' hrest]
end

/-! ## Lemmas: reflexivity of Python's `==` on NaN-free values -/

theorem dictHasKey_of_entryMem : ∀ (es : PyDict) (k : String) (v : PyValue),
    entryMem k v es → dictHasKey es k = true
  | .nil, _, _, h => h.elim
  | .cons k2 v2 rest, k, v, h => by
    rcases h with ⟨hk, _⟩ | h
    · subst hk
      simp [dictHasKey]
    · simp [dictHasKey, dictHasKey_of_entryMem rest k v h]

theorem dictGet_of_entryMem : ∀ (es : PyDict) (k : String) (v : PyValue),
    nodupKeys es = true → entryMem k v es → dictGet es k = some v
  | .nil, _, _, _, h => h.elim
  | .cons k2 v2 rest, k, v, hnd, h => by
    simp only [nodupKeys, Bool.and_eq_true, Bool.not_eq_true'] at hnd
    rcases h with ⟨hk, hv⟩ | h
    · subst hk
      subst hv
      simp [dictGet]
    · have hk2 : k2 ≠ k := by
        intro he
        have hmem := dictHasKey_of_entryMem rest k v h
        rw [← he] at hmem
        rw [hmem] at hnd
        exact absurd hnd.1 (by simp)
      simp [dictGet, hk2, dictGet_of_entryMem rest k v hnd.2 h]

mutual
theorem pyEq_refl : ∀ v : PyValue, v.eqSafe = true → pyEq v v = true
  | .vNone, _ => rfl
  | .vBool b, _ => by
    cases b <;> simp [pyEq, numEq, PyValue.asNum, NumV.peq]
  | .vInt n, _ => by
    simp [pyEq, numEq, PyValue.asNum, NumV.peq]
  | .vFloat f, hs => by
    cases f with
    | fin q => simp [pyEq, numEq, PyValue.asNum, numOfFloat, NumV.peq]
    | inf => rfl
    | neginf => rfl
    | nan => exact absurd hs (by simp [PyValue.eqSafe])
  | .vStr s, _ => by simp [pyEq]
  | .vObj, _ => rfl
  | .vList xs, hs => by
    simp only [PyValue.eqSafe] at hs
    simp [pyEq, pyEqList_refl xs hs]
  | .vDict es, hs => by
    simp only [PyValue.eqSafe, Bool.and_eq_true] at hs
    simp [pyEq, pyEqEntries_sub es es hs.2
      (fun k v hm => dictGet_of_entryMem es k v hs.1 hm)]
theorem pyEqList_refl : ∀ xs : PyList, xs.eqSafe = true → pyEqList xs xs = true
  | .nil, _ => rfl
  | .cons x xs, hs => by
    simp only [PyList.eqSafe, Bool.and_eq_true] at hs
    simp [pyEqList, pyEq_refl x hs.1, pyEqList_refl xs hs.2]
theorem pyEqEntries_sub : ∀ (sub es : PyDict), sub.eqSafe = true →
    (∀ k v, entryMem k v sub → dictGet es k = some v) →
    pyEqEntries sub es = true
  | .nil, _, _, _ => rfl
  | .cons k v rest, es, hs, hmem => by
    simp only [PyDict.eqSafe, Bool.and_eq_true] at hs
    have hget : dictGet es k = some v := hmem k v (Or.inl ⟨rfl, rfl⟩)
    simp [pyEqEntries, hget, pyEq_refl v hs.1,
      pyEqEntries_sub rest es hs.2 (fun k2 v2 hm => hmem k2 v2 (Or.inr hm))]
end

/-! ## Lemmas: heap primitives -/

theorem find?_addr_none (l : List (Nat × HObj)) (b : Nat)
    (h : ∀ e ∈ l, e.1 ≠ b) : l.find? (fun e => e.1 = b) = none :=
  List.find?_eq_none.mpr (fun x hx => by simpa using h x hx)

theorem find?_append_fresh (l tail : List (Nat × HObj)) (n b : Nat)
    (htail : ∀ e ∈ tail, n ≤ e.1) (hb : b < n) :
    (l ++ tail).find? (fun e => e.1 = b) = l.find? (fun e => e.1 = b) := by
  rw [List.find?_append,
    find?_addr_none tail b (fun e he => by have := htail e he; omega)]
  cases l.find? (fun e => e.1 = b) <;> rfl

theorem heapGet_some_lt {h : Heap} {a : Nat} {o : HObj}
    (hwf : h.WF) (hget : heapGet h a = some o) : a < h.next := by
  unfold heapGet at hget
  cases hf : h.store.find? (fun e => e.1 = a) with
  | none => rw [hf] at hget; simp at hget
  | some e =>
    have hmem : e ∈ h.store := List.mem_of_find?_eq_some hf
    have hp : e.1 = a := by
      have := List.find?_some hf
      simpa using this
    have := hwf.1 e hmem
    omega

theorem Heap.Extends.rfl (h : Heap) : h.Extends h :=
  ⟨le_refl _, [], by simp, by simp⟩

theorem Heap.Extends.trans {h1 h2 h3 : Heap}
    (e12 : h1.Extends h2) (e23 : h2.Extends h3) : h1.Extends h3 := by
  obtain ⟨hn12, t12, hs12, hf12⟩ := e12
  obtain ⟨hn23, t23, hs23, hf23⟩ := e23
  refine ⟨le_trans hn12 hn23, t12 ++ t23, ?_, ?_⟩
  · rw [hs23, hs12, List.append_assoc]
  · intro e he
    rcases List.mem_append.mp he with h | h
    · exact hf12 e h
    · exact le_trans hn12 (hf23 e h)

theorem heapGet_extends {h h' : Heap} (hext : h.Extends h') {b : Nat}
    (hb : b < h.next) : heapGet h' b = heapGet h b := by
  obtain ⟨_, tail, hs, hf⟩ := hext
  unfold heapGet
  rw [hs, find?_append_fresh h.store tail h.next b hf hb]

theorem alloc_extends (h : Heap) (o : HObj) : h.Extends (alloc h o).1 :=
  ⟨Nat.le_succ _, [(h.next, o)], by simp [alloc], by simp⟩

theorem heapGet_alloc {h : Heap} (hwf : ∀ e ∈ h.store, e.1 < h.next)
    (o : HObj) (b : Nat) :
    heapGet (alloc h o).1 b = if b = h.next then some o else heapGet h b := by
  by_cases hb : b = h.next
  · rw [if_pos hb]
    unfold heapGet alloc
    simp only
    rw [List.find?_append, find?_addr_none h.store b
      (fun e he => by have := hwf e he; omega),
      List.find?_cons_of_pos _ (by simp [hb])]
    rfl
  · rw [if_neg hb]
    rcases Nat.lt_or_ge b h.next with hlt | hge
    · exact heapGet_extends (alloc_extends h o) hlt
    · have hbn : h.next < b := by omega
      unfold heapGet alloc
      simp only
      rw [List.find?_append, find?_addr_none h.store b
        (fun e he => by have := hwf e he; omega),
        find?_addr_none [(h.next, o)] b (by intro e he; simp at he; subst he; simp; omega)]
      rfl

theorem mutate_next (h : Heap) (a : Nat) (o : HObj) : (mutate h a o).next = h.next := rfl

theorem heapGet_mutate_ne {h : Heap} {a b : Nat} (o : HObj) (hne : b ≠ a) :
    heapGet (mutate h a o) b = heapGet h b := by
  have hne' : a ≠ b := fun hh => hne hh.symm
  unfold heapGet mutate
  simp only
  induction h.store with
  | nil => rfl
  | cons e es ih =>
    simp only [List.map_cons]
    by_cases he : e.1 = a
    · rw [if_pos he,
        List.find?_cons_of_neg _ (by simpa using hne'),
        List.find?_cons_of_neg _ (by simp [he]; exact hne')]
      exact ih
    · rw [if_neg he]
      by_cases hb : e.1 = b
      · rw [List.find?_cons_of_pos _ (by simp [hb]),
          List.find?_cons_of_pos _ (by simp [hb])]
      · rw [List.find?_cons_of_neg _ (by simp [hb]),
          List.find?_cons_of_neg _ (by simp [hb])]
        exact ih

theorem refsIn_mono {S S' : Nat → Prop} (hss : ∀ a, S a → S' a) :
    ∀ (v : HValue), v.refsIn S → v.refsIn S'
  | .ref a, hv => hss a hv
  | .hNone, _ => trivial
  | .hBool _, _ => trivial
  | .hInt _, _ => trivial
  | .hFloat _, _ => trivial
  | .hStr _, _ => trivial
  | .hObj, _ => trivial

theorem objRefsIn_mono {S S' : Nat → Prop} (hss : ∀ a, S a → S' a) :
    ∀ (o : HObj), o.refsIn S → o.refsIn S'
  | .dictObj _, ho => fun e he => refsIn_mono hss e.2 (ho e he)
  | .listObj _, ho => fun x hx => refsIn_mono hss x (ho x hx)

theorem WF_closedOn {h : Heap} (hwf : h.WF) : closedOn (fun a => a < h.next) h := by
  intro a _ o hget
  unfold heapGet at hget
  cases hf : h.store.find? (fun e => e.1 = a) with
  | none => rw [hf] at hget; simp at hget
  | some e =>
    rw [hf] at hget
    simp only [Option.map_some', Option.some.injEq] at hget
    subst hget
    exact hwf.2 e (List.mem_of_find?_eq_some hf)

theorem WF_alloc {h : Heap} (hwf : h.WF) {o : HObj}
    (ho : o.refsIn (fun a => a < h.next)) : (alloc h o).1.WF := by
  constructor
  · intro e he
    simp only [alloc, List.mem_append, List.mem_singleton] at he
    rcases he with he | he
    · have := hwf.1 e he
      simp only [alloc]
      omega
    · subst he
      simp [alloc]
  · intro e he
    simp only [alloc, List.mem_append, List.mem_singleton] at he
    rcases he with he | he
    · exact objRefsIn_mono (fun a ha => by simp only [alloc]; omega) e.2 (hwf.2 e he)
    · subst he
      exact objRefsIn_mono (fun a ha => by simp only [alloc]; omega) o ho

/-! ## Lemmas: the fuelled valuation -/

theorem valAll_mono (h : Heap) : ∀ (f : Nat),
    (∀ v t, val f h v = some t → val (f + 1) h v = some t) ∧
    (∀ xs ts, valList f h xs = some ts → valList (f + 1) h xs = some ts) ∧
    (∀ es ds, valEntries f h es = some ds → valEntries (f + 1) h es = some ds) := by
  intro f
  induction f with
  | zero =>
    refine ⟨?_, ?_, ?_⟩
    · intro v t hv
      cases v <;> simp_all [val]
    · intro xs ts hxs
      cases xs <;> simp_all [valList]
    · intro es ds hes
      cases es <;> simp_all [valEntries]
  | succ f ih =>
    refine ⟨?_, ?_, ?_⟩
    · intro v t hv
      cases v with
      | ref a =>
        simp only [val] at hv ⊢
        cases hg : heapGet h a with
        | none => rw [hg] at hv; exact Option.noConfusion hv
        | some o =>
          rw [hg] at hv
          cases o with
          | dictObj es =>
            have hv2 : Option.map PyValue.vDict (valEntries f h es) = some t := hv
            rw [Option.map_eq_some'] at hv2
            obtain ⟨ds, hds, rfl⟩ := hv2
            show Option.map PyValue.vDict (valEntries (f + 1) h es) = some (PyValue.vDict ds)
            rw [ih.2.2 es ds hds]
            rfl
          | listObj xs =>
            have hv2 : Option.map PyValue.vList (valList f h xs) = some t := hv
            rw [Option.map_eq_some'] at hv2
            obtain ⟨ts, hts, rfl⟩ := hv2
            show Option.map PyValue.vList (valList (f + 1) h xs) = some (PyValue.vList ts)
            rw [ih.2.1 xs ts hts]
            rfl
      | hNone => exact hv
      | hBool b => exact hv
      | hInt n => exact hv
      | hFloat f2 => exact hv
      | hStr s => exact hv
      | hObj => exact hv
    · intro xs ts hxs
      cases xs with
      | nil => exact hxs
      | cons x xs =>
        simp only [valList] at hxs ⊢
        cases hx : val f h x with
        | none => rw [hx] at hxs; exact Option.noConfusion hxs
        | some t =>
          rw [hx] at hxs
          cases hxs2 : valList f h xs with
          | none => rw [hxs2] at hxs; exact Option.noConfusion hxs
          | some ts2 =>
            rw [hxs2] at hxs
            rw [ih.1 x t hx, ih.2.1 xs ts2 hxs2]
            exact hxs
    · intro es ds hes
      cases es with
      | nil => exact hes
      | cons e es =>
        simp only [valEntries] at hes ⊢
        cases hv : val f h e.2 with
        | none => rw [hv] at hes; exact Option.noConfusion hes
        | some t =>
          rw [hv] at hes
          cases hes2 : valEntries f h es with
          | none => rw [hes2] at hes; exact Option.noConfusion hes
          | some ds2 =>
            rw [hes2] at hes
            rw [ih.1 e.2 t hv, ih.2.2 es ds2 hes2]
            exact hes

theorem val_le {h : Heap} {v : HValue} {t : PyValue} {f g : Nat}
    (hfg : f ≤ g) (hv : val f h v = some t) : val g h v = some t := by
  induction hfg with
  | refl => exact hv
  | step _ ih => exact (valAll_mono h _).1 v t ih

theorem valEntries_le {h : Heap} {es : List (String × HValue)} {ds : PyDict}
    {f g : Nat} (hfg : f ≤ g) (hes : valEntries f h es = some ds) :
    valEntries g h es = some ds := by
  induction hfg with
  | refl => exact hes
  | step _ ih => exact (valAll_mono h _).2.2 es ds ih

theorem valList_le {h : Heap} {xs : List HValue} {ts : PyList}
    {f g : Nat} (hfg : f ≤ g) (hxs : valList f h xs = some ts) :
    valList g h xs = some ts := by
  induction hfg with
  | refl => exact hxs
  | step _ ih => exact (valAll_mono h _).2.1 xs ts ih

theorem valAll_frame (S : Nat → Prop) (h h' : Heap)
    (hag : agreesOn S h h') (hcl : closedOn S h) : ∀ (f : Nat),
    (∀ v, v.refsIn S → val f h' v = val f h v) ∧
    (∀ xs, (∀ x ∈ xs, x.refsIn S) → valList f h' xs = valList f h xs) ∧
    (∀ es, (∀ e ∈ es, HValue.refsIn S e.2) → valEntries f h' es = valEntries f h es) := by
  intro f
  induction f with
  | zero =>
    refine ⟨?_, ?_, ?_⟩
    · intro v _; cases v <;> rfl
    · intro xs _; cases xs <;> rfl
    · intro es _; cases es <;> rfl
  | succ f ih =>
    refine ⟨?_, ?_, ?_⟩
    · intro v hv
      cases v with
      | ref a =>
        have hS : S a := hv
        simp only [val]
        rw [hag a hS]
        cases hg : heapGet h a with
        | none => rfl
        | some o =>
          have ho := hcl a hS o hg
          cases o with
          | dictObj es =>
            show Option.map PyValue.vDict (valEntries f h' es) =
              Option.map PyValue.vDict (valEntries f h es)
            rw [ih.2.2 es ho]
          | listObj xs =>
            show Option.map PyValue.vList (valList f h' xs) =
              Option.map PyValue.vList (valList f h xs)
            rw [ih.2.1 xs ho]
      | hNone => rfl
      | hBool b => rfl
      | hInt n => rfl
      | hFloat f2 => rfl
      | hStr s => rfl
      | hObj => rfl
    · intro xs hxs
      cases xs with
      | nil => rfl
      | cons x xs =>
        simp only [valList]
        rw [ih.1 x (hxs x (List.mem_cons_self x xs)),
          ih.2.1 xs (fun y hy => hxs y (List.mem_cons_of_mem x hy))]
    · intro es hes
      cases es with
      | nil => rfl
      | cons e es =>
        simp only [valEntries]
        rw [ih.1 e.2 (hes e (List.mem_cons_self e es)),
          ih.2.2 es (fun y hy => hes y (List.mem_cons_of_mem e hy))]

/-! ## Lemmas: `allocTree` (the rebuild performed by deep copy) -/

theorem freshClosed_self {h : Heap} (hwf : h.WF) : freshClosed h h :=
  fun a ha o hget => absurd (heapGet_some_lt hwf hget) (by omega)

theorem refsIn_between_of_le_left {n n' m : Nat} (hn : n' ≤ n) {v : HValue}
    (hv : v.refsIn (fun a => n ≤ a ∧ a < m)) :
    v.refsIn (fun a => n' ≤ a ∧ a < m) :=
  refsIn_mono (fun a ha => ⟨le_trans hn ha.1, ha.2⟩) v hv

theorem refsIn_between_of_le_right {n m m' : Nat} (hm : m ≤ m') {v : HValue}
    (hv : v.refsIn (fun a => n ≤ a ∧ a < m)) :
    v.refsIn (fun a => n ≤ a ∧ a < m') :=
  refsIn_mono (fun a ha => ⟨ha.1, lt_of_lt_of_le ha.2 hm⟩) v hv

mutual
theorem allocTree_spec : ∀ (h : Heap) (t : PyValue), h.WF →
    (allocTree h t).1.WF ∧ h.Extends (allocTree h t).1 ∧
    (allocTree h t).2.refsIn (fun a => h.next ≤ a ∧ a < (allocTree h t).1.next) ∧
    freshClosed h (allocTree h t).1 ∧
    val t.fsize (allocTree h t).1 (allocTree h t).2 = some t
  | h, .vNone, hwf =>
    ⟨hwf, Heap.Extends.rfl h, trivial, freshClosed_self hwf, rfl⟩
  | h, .vBool b, hwf =>
    ⟨hwf, Heap.Extends.rfl h, trivial, freshClosed_self hwf, rfl⟩
  | h, .vInt n, hwf =>
    ⟨hwf, Heap.Extends.rfl h, trivial, freshClosed_self hwf, rfl⟩
  | h, .vFloat f, hwf =>
    ⟨hwf, Heap.Extends.rfl h, trivial, freshClosed_self hwf, rfl⟩
  | h, .vStr s, hwf =>
    ⟨hwf, Heap.Extends.rfl h, trivial, freshClosed_self hwf, rfl⟩
  | h, .vObj, hwf =>
    ⟨hwf, Heap.Extends.rfl h, trivial, freshClosed_self hwf, rfl⟩
  | h, .vDict es, hwf => by
    have IH := allocEntries_spec h es hwf
    rcases hE : allocEntries h es with ⟨h1, hes⟩
    rw [hE] at IH
    dsimp only at IH
    obtain ⟨ihWF, ihExt, ihRefs, ihFresh, ihVal⟩ := IH
    have hstep : allocTree h (.vDict es) =
        ((alloc h1 (.dictObj hes)).1, .ref (alloc h1 (.dictObj hes)).2) := by
      simp only [allocTree]
      rw [hE]
    rw [hstep]
    dsimp only
    have hn2 : (alloc h1 (.dictObj hes)).1.next = h1.next + 1 := rfl
    have hobj : HObj.refsIn (fun a => a < h1.next) (.dictObj hes) :=
      fun e he => refsIn_mono (fun a ha => ha.2) e.2 (ihRefs e he)
    have hwf2 : (alloc h1 (.dictObj hes)).1.WF := WF_alloc ihWF hobj
    have hag : agreesOn (fun a => a < h1.next) h1 (alloc h1 (.dictObj hes)).1 := by
      intro b hb
      rw [heapGet_alloc ihWF.1, if_neg (by omega)]
    refine ⟨hwf2, ihExt.trans (alloc_extends h1 _),
      ⟨ihExt.1, Nat.lt_succ_self h1.next⟩, ?_, ?_⟩
    · intro a ha o hget
      rw [heapGet_alloc ihWF.1] at hget
      by_cases hcase : a = h1.next
      · rw [if_pos hcase] at hget
        cases hget
        intro e he
        exact refsIn_between_of_le_right (Nat.le_succ h1.next) (ihRefs e he)
      · rw [if_neg hcase] at hget
        exact objRefsIn_mono
          (fun b hb => ⟨hb.1, lt_of_lt_of_le hb.2 (Nat.le_succ h1.next)⟩)
          o (ihFresh a ha o hget)
    · show val (es.fsize + 1) (alloc h1 (.dictObj hes)).1
        (.ref (alloc h1 (.dictObj hes)).2) = some (.vDict es)
      simp only [val]
      have hself : heapGet (alloc h1 (.dictObj hes)).1 (alloc h1 (.dictObj hes)).2
          = some (.dictObj hes) := by
        rw [heapGet_alloc ihWF.1]
        simp [alloc]
      rw [hself]
      have hfr := (valAll_frame (fun a => a < h1.next) h1 (alloc h1 (.dictObj hes)).1
        hag (WF_closedOn ihWF) es.fsize).2.2 hes
        (fun e he => refsIn_mono (fun a ha => ha.2) e.2 (ihRefs e he))
      show Option.map PyValue.vDict
        (valEntries es.fsize (alloc h1 (.dictObj hes)).1 hes) = some (.vDict es)
      rw [hfr, ihVal]
      rfl
  | h, .vList xs, hwf => by
    have IH := allocList_spec h xs hwf
    rcases hE : allocList h xs with ⟨h1, ys⟩
    rw [hE] at IH
    dsimp only at IH
    obtain ⟨ihWF, ihExt, ihRefs, ihFresh, ihVal⟩ := IH
    have hstep : allocTree h (.vList xs) =
        ((alloc h1 (.listObj ys)).1, .ref (alloc h1 (.listObj ys)).2) := by
      simp only [allocTree]
      rw [hE]
    rw [hstep]
    dsimp only
    have hobj : HObj.refsIn (fun a => a < h1.next) (.listObj ys) :=
      fun y hy => refsIn_mono (fun a ha => ha.2) y (ihRefs y hy)
    have hwf2 : (alloc h1 (.listObj ys)).1.WF := WF_alloc ihWF hobj
    have hag : agreesOn (fun a => a < h1.next) h1 (alloc h1 (.listObj ys)).1 := by
      intro b hb
      rw [heapGet_alloc ihWF.1, if_neg (by omega)]
    refine ⟨hwf2, ihExt.trans (alloc_extends h1 _),
      ⟨ihExt.1, Nat.lt_succ_self h1.next⟩, ?_, ?_⟩
    · intro a ha o hget
      rw [heapGet_alloc ihWF.1] at hget
      by_cases hcase : a = h1.next
      · rw [if_pos hcase] at hget
        cases hget
        intro y hy
        exact refsIn_between_of_le_right (Nat.le_succ h1.next) (ihRefs y hy)
      · rw [if_neg hcase] at hget
        exact objRefsIn_mono
          (fun b hb => ⟨hb.1, lt_of_lt_of_le hb.2 (Nat.le_succ h1.next)⟩)
          o (ihFresh a ha o hget)
    · show val (xs.fsize + 1) (alloc h1 (.listObj ys)).1
        (.ref (alloc h1 (.listObj ys)).2) = some (.vList xs)
      simp only [val]
      have hself : heapGet (alloc h1 (.listObj ys)).1 (alloc h1 (.listObj ys)).2
          = some (.listObj ys) := by
        rw [heapGet_alloc ihWF.1]
        simp [alloc]
      rw [hself]
      have hfr := (valAll_frame (fun a => a < h1.next) h1 (alloc h1 (.listObj ys)).1
        hag (WF_closedOn ihWF) xs.fsize).2.1 ys
        (fun y hy => refsIn_mono (fun a ha => ha.2) y (ihRefs y hy))
      show Option.map PyValue.vList
        (valList xs.fsize (alloc h1 (.listObj ys)).1 ys) = some (.vList xs)
      rw [hfr, ihVal]
      rfl
theorem allocList_spec : ∀ (h : Heap) (xs : PyList), h.WF →
    (allocList h xs).1.WF ∧ h.Extends (allocList h xs).1 ∧
    (∀ y ∈ (allocList h xs).2,
      y.refsIn (fun a => h.next ≤ a ∧ a < (allocList h xs).1.next)) ∧
    freshClosed h (allocList h xs).1 ∧
    valList xs.fsize (allocList h xs).1 (allocList h xs).2 = some xs
  | h, .nil, hwf =>
    ⟨hwf, Heap.Extends.rfl h, fun y hy => absurd hy (List.not_mem_nil y),
      freshClosed_self hwf, rfl⟩
  | h, .cons x xs, hwf => by
    have IH1 := allocTree_spec h x hwf
    rcases hX : allocTree h x with ⟨h1, y⟩
    rw [hX] at IH1
    dsimp only at IH1
    obtain ⟨ih1WF, ih1Ext, ih1Refs, ih1Fresh, ih1Val⟩ := IH1
    have IH2 := allocList_spec h1 xs ih1WF
    rcases hXS : allocList h1 xs with ⟨h2, ys⟩
    rw [hXS] at IH2
    dsimp only at IH2
    obtain ⟨ih2WF, ih2Ext, ih2Refs, ih2Fresh, ih2Val⟩ := IH2
    have hstep : allocList h (.cons x xs) = (h2, y :: ys) := by
      simp only [allocList]
      rw [hX, hXS]
    rw [hstep]
    dsimp only
    have hagr : agreesOn (fun a => a < h1.next) h1 h2 := by
      intro b hb
      exact heapGet_extends ih2Ext hb
    have hyh2 : val x.fsize h2 y = some x := by
      rw [(valAll_frame (fun a => a < h1.next) h1 h2 hagr
        (WF_closedOn ih1WF) x.fsize).1 y
        (refsIn_mono (fun a ha => ha.2) y ih1Refs)]
      exact ih1Val
    refine ⟨ih2WF, ih1Ext.trans ih2Ext, ?_, ?_, ?_⟩
    · intro z hz
      rcases List.mem_cons.mp hz with hz | hz
      · subst hz
        exact refsIn_between_of_le_right ih2Ext.1 ih1Refs
      · exact refsIn_between_of_le_left ih1Ext.1 (ih2Refs z hz)
    · intro a ha o hget
      by_cases hcase : a < h1.next
      · rw [heapGet_extends ih2Ext hcase] at hget
        exact objRefsIn_mono (fun b hb => ⟨hb.1, lt_of_lt_of_le hb.2 ih2Ext.1⟩)
          o (ih1Fresh a ha o hget)
      · exact objRefsIn_mono (fun b hb => ⟨le_trans ih1Ext.1 hb.1, hb.2⟩)
          o (ih2Fresh a (by omega) o hget)
    · show valList ((x.fsize + xs.fsize) + 1) h2 (y :: ys) = some (.cons x xs)
      simp only [valList]
      rw [val_le (Nat.le_add_right _ _) hyh2,
        valList_le (Nat.le_add_left _ _) ih2Val]
theorem allocEntries_spec : ∀ (h : Heap) (es : PyDict), h.WF →
    (allocEntries h es).1.WF ∧ h.Extends (allocEntries h es).1 ∧
    (∀ e ∈ (allocEntries h es).2,
      HValue.refsIn (fun a => h.next ≤ a ∧ a < (allocEntries h es).1.next) e.2) ∧
    freshClosed h (allocEntries h es).1 ∧
    valEntries es.fsize (allocEntries h es).1 (allocEntries h es).2 = some es
  | h, .nil, hwf =>
    ⟨hwf, Heap.Extends.rfl h, fun e he => absurd he (List.not_mem_nil e),
      freshClosed_self hwf, rfl⟩
  | h, .cons k v rest, hwf => by
    have IH1 := allocTree_spec h v hwf
    rcases hV : allocTree h v with ⟨h1, y⟩
    rw [hV] at IH1
    dsimp only at IH1
    obtain ⟨ih1WF, ih1Ext, ih1Refs, ih1Fresh, ih1Val⟩ := IH1
    have IH2 := allocEntries_spec h1 rest ih1WF
    rcases hR : allocEntries h1 rest with ⟨h2, ys⟩
    rw [hR] at IH2
    dsimp only at IH2
    obtain ⟨ih2WF, ih2Ext, ih2Refs, ih2Fresh, ih2Val⟩ := IH2
    have hstep : allocEntries h (.cons k v rest) = (h2, (k, y) :: ys) := by
      simp only [allocEntries]
      rw [hV, hR]
    rw [hstep]
    dsimp only
    have hagr : agreesOn (fun a => a < h1.next) h1 h2 := by
      intro b hb
      exact heapGet_extends ih2Ext hb
    have hyh2 : val v.fsize h2 y = some v := by
      rw [(valAll_frame (fun a => a < h1.next) h1 h2 hagr
        (WF_closedOn ih1WF) v.fsize).1 y
        (refsIn_mono (fun a ha => ha.2) y ih1Refs)]
      exact ih1Val
    refine ⟨ih2WF, ih1Ext.trans ih2Ext, ?_, ?_, ?_⟩
    · intro z hz
      rcases List.mem_cons.mp hz with hz | hz
      · subst hz
        exact refsIn_between_of_le_right ih2Ext.1 ih1Refs
      · exact refsIn_between_of_le_left ih1Ext.1 (ih2Refs z hz)
    · intro a ha o hget
      by_cases hcase : a < h1.next
      · rw [heapGet_extends ih2Ext hcase] at hget
        exact objRefsIn_mono (fun b hb => ⟨hb.1, lt_of_lt_of_le hb.2 ih2Ext.1⟩)
          o (ih1Fresh a ha o hget)
      · exact objRefsIn_mono (fun b hb => ⟨le_trans ih1Ext.1 hb.1, hb.2⟩)
          o (ih2Fresh a (by omega) o hget)
    · show valEntries ((v.fsize + rest.fsize) + 1) h2 ((k, y) :: ys)
        = some (.cons k v rest)
      simp only [valEntries]
      rw [val_le (Nat.le_add_right _ _) hyh2,
        valEntries_le (Nat.le_add_left _ _) ih2Val]
end

theorem val_ref_lt {h : Heap} {p f : Nat} {t : PyValue}
    (hwf : h.WF) (hval : val f h (.ref p) = some t) : p < h.next := by
  cases f with
  | zero => exact Option.noConfusion hval
  | succ f =>
    simp only [val] at hval
    cases hg : heapGet h p with
    | none => rw [hg] at hval; exact Option.noConfusion hval
    | some o => exact heapGet_some_lt hwf hg

/-! ## Claim theorems -/

/-- C1: the claim says a non-JSON-encodable parameter value is a
construction-time error and `to_json` cannot fail on a constructed
instance.  The code violates its own documented protocol ("populate the
params dictionary ... then call `super().__post_init__()`"):
`SetBlueprintPropertyCommand.__post_init__` calls `super().__post_init__()`
FIRST, so validation runs before `property_value` reaches `params`.
Evaluation at the failing input: construction with an opaque
non-serializable `property_value` succeeds, and `to_json` then fails. -/
theorem C1_property_value_escapes_validation :
    mkSetBlueprintPropertyCommand "BP" "Health" PyValue.vObj "" (.vDict .nil) =
      .ok ⟨"BP", "Health", .vObj, "",
        .cons "blueprint_name" (.vStr "BP") (.cons "property_name" (.vStr "Health")
          (.cons "property_value" .vObj (.cons "property_type" (.vStr "") .nil)))⟩ ∧
    SetBlueprintPropertyCommand.to_json ⟨"BP", "Health", .vObj, "",
      .cons "blueprint_name" (.vStr "BP") (.cons "property_name" (.vStr "Health")
        (.cons "property_value" .vObj (.cons "property_type" (.vStr "") .nil)))⟩
      = none :=
  ⟨rfl, rfl⟩

/-- C2 counterexample: the claim says a blank required field fails
construction for every listed variant; but `CompileBlueprintCommand`,
`SetBlueprintPropertyCommand` and `SetStaticMeshPropertiesCommand` define
no `validate` override, so constructing them with every required field
blank succeeds. -/
theorem C2_blank_required_fields_accepted :
    mkCompileBlueprintCommand "" (.vDict .nil) =
      .ok ⟨"", .cons "blueprint_name" (.vStr "") .nil⟩ ∧
    mkSetBlueprintPropertyCommand "" "" .vNone "" (.vDict .nil) =
      .ok ⟨"", "", .vNone, "",
        .cons "blueprint_name" (.vStr "") (.cons "property_name" (.vStr "")
          (.cons "property_value" .vNone (.cons "property_type" (.vStr "") .nil)))⟩ ∧
    mkSetStaticMeshPropertiesCommand "" "" "" none none none (.vDict .nil) =
      .ok ⟨"", "", "", none, none, none,
        .cons "blueprint_name" (.vStr "") (.cons "component_name" (.vStr "")
          (.cons "mesh_path" (.vStr "") .nil))⟩ :=
  ⟨rfl, rfl, rfl⟩

/-- C2 amended: only `CreateBlueprintCommand` (`name`, `parent_class`) and
`AddComponentToBlueprintCommand` (`blueprint_name`, `component_type`)
reject blank required fields at construction time;
`CompileBlueprintCommand`, `SetBlueprintPropertyCommand` and
`SetStaticMeshPropertiesCommand` perform no required-field check and
construct successfully whatever their string fields are. -/
theorem C2_required_field_checks_amended :
    (∀ (n pc : String) (d : PyDict), isBlank n = true →
      mkCreateBlueprintCommand n pc (.vDict d) = .error (.valueError
        "CreateBlueprintCommand validation failed: name cannot be empty")) ∧
    (∀ (n pc : String) (d : PyDict), isBlank n = false → isBlank pc = true →
      mkCreateBlueprintCommand n pc (.vDict d) = .error (.valueError
        "CreateBlueprintCommand validation failed: parent_class cannot be empty")) ∧
    (∀ (bn ct cn : String) (d : PyDict), isBlank bn = true →
      mkAddComponentToBlueprintCommand bn ct cn (.vDict d) = .error (.valueError
        "AddComponentToBlueprintCommand validation failed: blueprint_name cannot be empty")) ∧
    (∀ (bn ct cn : String) (d : PyDict), isBlank bn = false → isBlank ct = true →
      mkAddComponentToBlueprintCommand bn ct cn (.vDict d) = .error (.valueError
        "AddComponentToBlueprintCommand validation failed: component_type cannot be empty")) ∧
    (∀ (bn : String) (d : PyDict), d.serializable = true →
      mkCompileBlueprintCommand bn (.vDict d) =
        .ok ⟨bn, dictUpdate d (.cons "blueprint_name" (.vStr bn) .nil)⟩) ∧
    (∀ (bn pn pt : String) (pv : PyValue) (d : PyDict), d.serializable = true →
      mkSetBlueprintPropertyCommand bn pn pv pt (.vDict d) =
        .ok ⟨bn, pn, pv, pt,
          dictUpdate d (.cons "blueprint_name" (.vStr bn)
            (.cons "property_name" (.vStr pn) (.cons "property_value" pv
              (.cons "property_type" (.vStr pt) .nil))))⟩) ∧
    (∀ (bn cn mp : String) (d : PyDict), d.serializable = true →
      mkSetStaticMeshPropertiesCommand bn cn mp none none none (.vDict d) =
        .ok ⟨bn, cn, mp, none, none, none,
          dictUpdate d (.cons "blueprint_name" (.vStr bn)
            (.cons "component_name" (.vStr cn)
              (.cons "mesh_path" (.vStr mp) .nil)))⟩) := by
  refine ⟨?_, ?_, ?_, ?_, ?_, ?_, ?_⟩
  · intro n pc d hn
    simp [mkCreateBlueprintCommand, hn]
  · intro n pc d hn hpc
    simp [mkCreateBlueprintCommand, hn, hpc]
  · intro bn ct cn d hbn
    simp [mkAddComponentToBlueprintCommand, hbn]
  · intro bn ct cn d hbn hct
    simp [mkAddComponentToBlueprintCommand, hbn, hct]
  · intro bn d hd
    simp [mkCompileBlueprintCommand, normParams, hd]
  · intro bn pn pt pv d hd
    simp [mkSetBlueprintPropertyCommand, normParams, hd]
  · intro bn cn mp d hd
    simp [mkSetStaticMeshPropertiesCommand, normParams, hd]

/-- Witness for the amended C2 at concrete inputs. -/
theorem C2_required_field_checks_amended_witness :
    isBlank " " = true ∧
    mkCreateBlueprintCommand " " "/Script/Engine.Actor" (.vDict .nil) =
      .error (.valueError
        "CreateBlueprintCommand validation failed: name cannot be empty") ∧
    PyDict.serializable .nil = true ∧
    mkCompileBlueprintCommand "" (.vDict .nil) =
      .ok ⟨"", dictUpdate .nil (.cons "blueprint_name" (.vStr "") .nil)⟩ :=
  ⟨by decide,
    C2_required_field_checks_amended.1 " " "/Script/Engine.Actor" .nil (by decide),
    by decide,
    C2_required_field_checks_amended.2.2.2.2.1 "" .nil (by decide)⟩

/-- C3: wire-type derivation is a pure function of the class name —
computing it twice yields the same string — the three documented mappings
hold exactly, the result is lower-case for every command class of the
repository (and the `type` property of every instance equals the
derivation of its class name), and a trailing `'Command'` is stripped
before the CamelCase-to-snake_case conversion. -/
theorem C3_wire_type_derivation :
    snakeCase "CreateBlueprintCommand" = "create_blueprint" ∧
    snakeCase "AddComponentToBlueprintCommand" = "add_component_to_blueprint" ∧
    snakeCase "SetStaticMeshPropertiesCommand" = "set_static_mesh_properties" ∧
    (∀ s : String, snakeCase s = snakeCase s) ∧
    (∀ c : CreateBlueprintCommand, c.type = "create_blueprint") ∧
    (∀ c : AddComponentToBlueprintCommand, c.type = "add_component_to_blueprint") ∧
    (∀ c : SetStaticMeshPropertiesCommand, c.type = "set_static_mesh_properties") ∧
    (["BaseCommand", "CreateBlueprintCommand", "AddComponentToBlueprintCommand",
      "CompileBlueprintCommand", "SetBlueprintPropertyCommand",
      "SetStaticMeshPropertiesCommand"].all
        (fun s => (snakeCase s).data.all (fun c => !(isUpperAZ c))) = true) ∧
    (∀ s : String, endsWithCommand s = true →
      snakeCase s = camelToSnake (String.mk (s.data.take (s.data.length - 7)))) :=
  ⟨by decide, by decide, by decide, fun s => rfl,
    fun _ => (by decide : snakeCase "CreateBlueprintCommand" = "create_blueprint"),
    fun _ => (by decide :
      snakeCase "AddComponentToBlueprintCommand" = "add_component_to_blueprint"),
    fun _ => (by decide :
      snakeCase "SetStaticMeshPropertiesCommand" = "set_static_mesh_properties"),
    by decide,
    fun s hs => by simp [snakeCase, stripCommandSuffix, hs]⟩

/-- Witness for C3's suffix-stripping component at a concrete name. -/
theorem C3_wire_type_derivation_witness :
    endsWithCommand "SpawnActorCommand" = true ∧
    snakeCase "SpawnActorCommand" =
      camelToSnake (String.mk ("SpawnActorCommand".data.take
        ("SpawnActorCommand".data.length - 7))) :=
  ⟨by decide,
    C3_wire_type_derivation.2.2.2.2.2.2.2.2 "SpawnActorCommand" (by decide)⟩

/-- C5 counterexample: the claim says constructing
`AddComponentToBlueprint` without `component_name` (and
`SetBlueprintProperty` without `property_value`/`property_type`) yields no
key for the omitted field; but their `__post_init__` always writes those
keys (with `''` resp. `None` defaults). -/
theorem C5_omitted_optional_keys_present :
    mkAddComponentToBlueprintCommand "BP" "MeshComponent" "" (.vDict .nil) =
      .ok ⟨"BP", "MeshComponent", "",
        .cons "blueprint_name" (.vStr "BP") (.cons "component_type" (.vStr "MeshComponent")
          (.cons "component_name" (.vStr "") .nil))⟩ ∧
    dictHasKey (.cons "blueprint_name" (.vStr "BP")
      (.cons "component_type" (.vStr "MeshComponent")
        (.cons "component_name" (.vStr "") .nil))) "component_name" = true ∧
    mkSetBlueprintPropertyCommand "BP" "Health" .vNone "" (.vDict .nil) =
      .ok ⟨"BP", "Health", .vNone, "",
        .cons "blueprint_name" (.vStr "BP") (.cons "property_name" (.vStr "Health")
          (.cons "property_value" .vNone (.cons "property_type" (.vStr "") .nil)))⟩ ∧
    dictHasKey (.cons "blueprint_name" (.vStr "BP") (.cons "property_name" (.vStr "Health")
      (.cons "property_value" .vNone (.cons "property_type" (.vStr "") .nil))))
      "property_value" = true ∧
    dictHasKey (.cons "blueprint_name" (.vStr "BP") (.cons "property_name" (.vStr "Health")
      (.cons "property_value" .vNone (.cons "property_type" (.vStr "") .nil))))
      "property_type" = true :=
  ⟨rfl, by decide, rfl, by decide, by decide⟩

/-- C5 amended: only `SetStaticMeshPropertiesCommand` includes its
optional fields (`location`, `rotation`, `scale`) conditionally — omitted
means no key at all, provided means the key is present;
`AddComponentToBlueprintCommand` always writes `component_name` (the empty
string when omitted) and `SetBlueprintPropertyCommand` always writes
`property_value` (`None` when omitted) and `property_type` (`''` when
omitted). -/
theorem C5_optional_fields_amended :
    (∀ bn cn mp : String,
      mkSetStaticMeshPropertiesCommand bn cn mp none none none (.vDict .nil) =
        .ok ⟨bn, cn, mp, none, none, none,
          .cons "blueprint_name" (.vStr bn) (.cons "component_name" (.vStr cn)
            (.cons "mesh_path" (.vStr mp) .nil))⟩ ∧
      dictHasKey (.cons "blueprint_name" (.vStr bn) (.cons "component_name" (.vStr cn)
        (.cons "mesh_path" (.vStr mp) .nil))) "location" = false ∧
      dictHasKey (.cons "blueprint_name" (.vStr bn) (.cons "component_name" (.vStr cn)
        (.cons "mesh_path" (.vStr mp) .nil))) "rotation" = false ∧
      dictHasKey (.cons "blueprint_name" (.vStr bn) (.cons "component_name" (.vStr cn)
        (.cons "mesh_path" (.vStr mp) .nil))) "scale" = false) ∧
    (∀ (bn cn mp : String) (l : PyValue),
      mkSetStaticMeshPropertiesCommand bn cn mp (some l) none none (.vDict .nil) =
        .ok ⟨bn, cn, mp, some l, none, none,
          .cons "blueprint_name" (.vStr bn) (.cons "component_name" (.vStr cn)
            (.cons "mesh_path" (.vStr mp) (.cons "location" l .nil)))⟩) ∧
    (∀ bn ct : String, isBlank bn = false → isBlank ct = false →
      mkAddComponentToBlueprintCommand bn ct "" (.vDict .nil) =
        .ok ⟨bn, ct, "",
          .cons "blueprint_name" (.vStr bn) (.cons "component_type" (.vStr ct)
            (.cons "component_name" (.vStr "") .nil))⟩) ∧
    (∀ bn pn : String,
      mkSetBlueprintPropertyCommand bn pn .vNone "" (.vDict .nil) =
        .ok ⟨bn, pn, .vNone, "",
          .cons "blueprint_name" (.vStr bn) (.cons "property_name" (.vStr pn)
            (.cons "property_value" .vNone (.cons "property_type" (.vStr "") .nil)))⟩) := by
  refine ⟨?_, ?_, ?_, ?_⟩
  · intro bn cn mp
    exact ⟨rfl, rfl, rfl, rfl⟩
  · intro bn cn mp l
    rfl
  · intro bn ct hbn hct
    simp [mkAddComponentToBlueprintCommand, dictUpdate, dictSet, hbn, hct,
      PyDict.serializable, PyValue.serializable]
  · intro bn pn
    rfl

/-- Witness for the amended C5 at concrete inputs. -/
theorem C5_optional_fields_amended_witness :
    isBlank "BP" = false ∧ isBlank "MeshComponent" = false ∧
    mkAddComponentToBlueprintCommand "BP" "MeshComponent" "" (.vDict .nil) =
      .ok ⟨"BP", "MeshComponent", "",
        .cons "blueprint_name" (.vStr "BP") (.cons "component_type" (.vStr "MeshComponent")
          (.cons "component_name" (.vStr "") .nil))⟩ :=
  ⟨by decide, by decide,
    C5_optional_fields_amended.2.2.1 "BP" "MeshComponent" (by decide) (by decide)⟩

/-- C6 counterexample: the claim says a non-mapping parameter container is
a fatal construction-time failure for every variant; but the base
`__post_init__` replaces a non-dict container with `{}` before validating,
so e.g. `CompileBlueprintCommand` and `BaseCommand` construct successfully
with an integer container. -/
theorem C6_nonmapping_container_accepted :
    mkCompileBlueprintCommand "X" (.vInt 5) =
      .ok ⟨"X", .cons "blueprint_name" (.vStr "X") .nil⟩ ∧
    mkBaseCommand (.vInt 5) = .ok ⟨.nil⟩ :=
  ⟨rfl, rfl⟩

/-- C6 amended: a non-mapping parameter container is never rejected by the
validation path.  For `BaseCommand`, `CompileBlueprintCommand`,
`SetBlueprintPropertyCommand` and `SetStaticMeshPropertiesCommand` (whose
`__post_init__` calls the base initializer first) the container is
silently replaced by an empty dict and construction succeeds; only
`CreateBlueprintCommand` and `AddComponentToBlueprintCommand` fail — with
an attribute error from calling `update` on the non-mapping container,
before any validation runs. -/
theorem C6_nonmapping_container_amended :
    (∀ p0 : PyValue, p0.asDict = none → mkBaseCommand p0 = .ok ⟨.nil⟩) ∧
    (∀ (p0 : PyValue) (bn : String), p0.asDict = none →
      mkCompileBlueprintCommand bn p0 =
        .ok ⟨bn, .cons "blueprint_name" (.vStr bn) .nil⟩) ∧
    (∀ (p0 : PyValue) (bn pn pt : String) (pv : PyValue), p0.asDict = none →
      mkSetBlueprintPropertyCommand bn pn pv pt p0 =
        .ok ⟨bn, pn, pv, pt,
          .cons "blueprint_name" (.vStr bn) (.cons "property_name" (.vStr pn)
            (.cons "property_value" pv (.cons "property_type" (.vStr pt) .nil)))⟩) ∧
    (∀ (p0 : PyValue) (bn cn mp : String), p0.asDict = none →
      mkSetStaticMeshPropertiesCommand bn cn mp none none none p0 =
        .ok ⟨bn, cn, mp, none, none, none,
          .cons "blueprint_name" (.vStr bn) (.cons "component_name" (.vStr cn)
            (.cons "mesh_path" (.vStr mp) .nil))⟩) ∧
    (∀ (p0 : PyValue) (n pc : String), p0.asDict = none →
      mkCreateBlueprintCommand n pc p0 =
        .error (.attributeError "object has no attribute update")) ∧
    (∀ (p0 : PyValue) (bn ct cn : String), p0.asDict = none →
      mkAddComponentToBlueprintCommand bn ct cn p0 =
        .error (.attributeError "object has no attribute update")) := by
  refine ⟨?_, ?_, ?_, ?_, ?_, ?_⟩
  · intro p0 h
    cases p0 <;> simp_all [mkBaseCommand, normParams, PyValue.asDict,
      PyDict.serializable]
  · intro p0 bn h
    cases p0 <;> simp_all [mkCompileBlueprintCommand, normParams, PyValue.asDict,
      PyDict.serializable, dictUpdate, dictSet]
  · intro p0 bn pn pt pv h
    cases p0 <;> simp_all [mkSetBlueprintPropertyCommand, normParams, PyValue.asDict,
      PyDict.serializable, dictUpdate, dictSet]
  · intro p0 bn cn mp h
    cases p0 <;> simp_all [mkSetStaticMeshPropertiesCommand, normParams, PyValue.asDict,
      PyDict.serializable, dictUpdate, dictSet]
  · intro p0 n pc h
    cases p0 <;> simp_all [mkCreateBlueprintCommand, PyValue.asDict]
  · intro p0 bn ct cn h
    cases p0 <;> simp_all [mkAddComponentToBlueprintCommand, PyValue.asDict]

/-- Witness for the amended C6 at a concrete non-mapping container. -/
theorem C6_nonmapping_container_amended_witness :
    PyValue.asDict (.vInt 7) = none ∧
    mkBaseCommand (.vInt 7) = .ok ⟨.nil⟩ ∧
    mkCreateBlueprintCommand "A" "/Script/Engine.Actor" (.vInt 7) =
      .error (.attributeError "object has no attribute update") :=
  ⟨by decide,
    C6_nonmapping_container_amended.1 (.vInt 7) (by decide),
    C6_nonmapping_container_amended.2.2.2.2.1 (.vInt 7) "A" "/Script/Engine.Actor"
      (by decide)⟩

/-- C9: `BaseCommand` can be constructed directly with the default empty
params; its wire type is `"base"` and its mapping conversion is
`{'type': 'base', 'params': {}}`. -/
theorem C9_base_command_direct :
    mkBaseCommand (.vDict .nil) = .ok ⟨.nil⟩ ∧
    BaseCommand.type ⟨.nil⟩ = "base" ∧
    BaseCommand.to_dict ⟨.nil⟩ =
      .vDict (.cons "type" (.vStr "base") (.cons "params" (.vDict .nil) .nil)) :=
  ⟨rfl, by decide, by decide⟩

/-- C7 counterexample: a `NaN` `property_value` passes validation
(`json.dumps` succeeds with the default `allow_nan=True`, emitting the
token `NaN`), so construction and `to_json` both succeed and parsing
returns the identical value tree — but the parsed mapping is NOT equal to
`to_dict`'s under Python's `==`, because `nan != nan` (and the freshly
parsed NaN is a new object, so the container identity shortcut cannot
save the comparison).  The round-trip claim, as stated over every validly
constructed instance, is false at this input. -/
theorem C7_nan_round_trip_fails :
    mkSetBlueprintPropertyCommand "BP" "Health" (.vFloat .nan) "" (.vDict .nil) =
      .ok ⟨"BP", "Health", .vFloat .nan, "",
        .cons "blueprint_name" (.vStr "BP") (.cons "property_name" (.vStr "Health")
          (.cons "property_value" (.vFloat .nan)
            (.cons "property_type" (.vStr "") .nil)))⟩ ∧
    SetBlueprintPropertyCommand.to_json ⟨"BP", "Health", .vFloat .nan, "",
      .cons "blueprint_name" (.vStr "BP") (.cons "property_name" (.vStr "Health")
        (.cons "property_value" (.vFloat .nan)
          (.cons "property_type" (.vStr "") .nil)))⟩ =
      some (.jObj (.cons "type" (.jStr "set_blueprint_property")
        (.cons "params" (.jObj (.cons "blueprint_name" (.jStr "BP")
          (.cons "property_name" (.jStr "Health")
            (.cons "property_value" (.jFloat .nan)
              (.cons "property_type" (.jStr "") .nil))))) .nil))) ∧
    loads (.jObj (.cons "type" (.jStr "set_blueprint_property")
      (.cons "params" (.jObj (.cons "blueprint_name" (.jStr "BP")
        (.cons "property_name" (.jStr "Health")
          (.cons "property_value" (.jFloat .nan)
            (.cons "property_type" (.jStr "") .nil))))) .nil))) =
      SetBlueprintPropertyCommand.to_dict ⟨"BP", "Health", .vFloat .nan, "",
        .cons "blueprint_name" (.vStr "BP") (.cons "property_name" (.vStr "Health")
          (.cons "property_value" (.vFloat .nan)
            (.cons "property_type" (.vStr "") .nil)))⟩ ∧
    pyEq
      (loads (.jObj (.cons "type" (.jStr "set_blueprint_property")
        (.cons "params" (.jObj (.cons "blueprint_name" (.jStr "BP")
          (.cons "property_name" (.jStr "Health")
            (.cons "property_value" (.jFloat .nan)
              (.cons "property_type" (.jStr "") .nil))))) .nil))))
      (SetBlueprintPropertyCommand.to_dict ⟨"BP", "Health", .vFloat .nan, "",
        .cons "blueprint_name" (.vStr "BP") (.cons "property_name" (.vStr "Health")
          (.cons "property_value" (.vFloat .nan)
            (.cons "property_type" (.vStr "") .nil)))⟩) = false :=
  ⟨rfl, rfl, rfl, by decide⟩

/-- C7 amended: for every command whose JSON-string conversion succeeds,
parsing the produced document always returns the identical value tree,
and the parsed mapping is equal to `to_dict`'s under Python's `==`
whenever the mapping contains no NaN (dicts built by Python always have
the unique keys `eqSafe` also requires); a NaN anywhere in `params`
survives validation and serialization but makes the comparison fail,
since `nan != nan`. -/
theorem C7_round_trip_amended :
    (∀ (c : BaseCommand) (j : Json), c.to_json = some j →
      loads j = c.to_dict ∧
      (PyValue.eqSafe c.to_dict = true → pyEq (loads j) c.to_dict = true)) ∧
    (∀ (c : CreateBlueprintCommand) (j : Json), c.to_json = some j →
      loads j = c.to_dict ∧
      (PyValue.eqSafe c.to_dict = true → pyEq (loads j) c.to_dict = true)) ∧
    (∀ (c : AddComponentToBlueprintCommand) (j : Json), c.to_json = some j →
      loads j = c.to_dict ∧
      (PyValue.eqSafe c.to_dict = true → pyEq (loads j) c.to_dict = true)) ∧
    (∀ (c : CompileBlueprintCommand) (j : Json), c.to_json = some j →
      loads j = c.to_dict ∧
      (PyValue.eqSafe c.to_dict = true → pyEq (loads j) c.to_dict = true)) ∧
    (∀ (c : SetBlueprintPropertyCommand) (j : Json), c.to_json = some j →
      loads j = c.to_dict ∧
      (PyValue.eqSafe c.to_dict = true → pyEq (loads j) c.to_dict = true)) ∧
    (∀ (c : SetStaticMeshPropertiesCommand) (j : Json), c.to_json = some j →
      loads j = c.to_dict ∧
      (PyValue.eqSafe c.to_dict = true → pyEq (loads j) c.to_dict = true)) :=
  ⟨fun c j h => ⟨loads_of_dumps c.to_dict j h,
      fun hsafe => by rw [loads_of_dumps c.to_dict j h]; exact pyEq_refl _ hsafe⟩,
    fun c j h => ⟨loads_of_dumps c.to_dict j h,
      fun hsafe => by rw [loads_of_dumps c.to_dict j h]; exact pyEq_refl _ hsafe⟩,
    fun c j h => ⟨loads_of_dumps c.to_dict j h,
      fun hsafe => by rw [loads_of_dumps c.to_dict j h]; exact pyEq_refl _ hsafe⟩,
    fun c j h => ⟨loads_of_dumps c.to_dict j h,
      fun hsafe => by rw [loads_of_dumps c.to_dict j h]; exact pyEq_refl _ hsafe⟩,
    fun c j h => ⟨loads_of_dumps c.to_dict j h,
      fun hsafe => by rw [loads_of_dumps c.to_dict j h]; exact pyEq_refl _ hsafe⟩,
    fun c j h => ⟨loads_of_dumps c.to_dict j h,
      fun hsafe => by rw [loads_of_dumps c.to_dict j h]; exact pyEq_refl _ hsafe⟩⟩

/-- Witness for the amended C7 at a concrete command. -/
theorem C7_round_trip_amended_witness :
    BaseCommand.to_json ⟨.nil⟩ =
      some (.jObj (.cons "type" (.jStr "base") (.cons "params" (.jObj .nil) .nil))) ∧
    PyValue.eqSafe (BaseCommand.to_dict ⟨.nil⟩) = true ∧
    (loads (.jObj (.cons "type" (.jStr "base") (.cons "params" (.jObj .nil) .nil))) =
        BaseCommand.to_dict ⟨.nil⟩ ∧
      (PyValue.eqSafe (BaseCommand.to_dict ⟨.nil⟩) = true →
        pyEq (loads (.jObj (.cons "type" (.jStr "base")
          (.cons "params" (.jObj .nil) .nil)))) (BaseCommand.to_dict ⟨.nil⟩) = true)) :=
  ⟨by decide, by decide, C7_round_trip_amended.1 ⟨.nil⟩ _ (by decide)⟩

/-- C4 counterexample: `to_dict` copies `params` SHALLOWLY
(`self.params.copy()`), so mutating a value nested inside the returned
mapping (here: the dict object shared through the `location` entry of the
copy at address 2) changes the command's own parameters — the command's
params value flips from `x = 0` to `x = 99`. -/
theorem C4_nested_mutation_changes_params :
    shallowCopyParams
      ⟨[(0, .dictObj [("location", .ref 1)]), (1, .dictObj [("x", .hInt 0)])], 2⟩ 0 =
      some (⟨[(0, .dictObj [("location", .ref 1)]), (1, .dictObj [("x", .hInt 0)]),
        (2, .dictObj [("location", .ref 1)])], 3⟩, 2) ∧
    readKey ⟨[(0, .dictObj [("location", .ref 1)]), (1, .dictObj [("x", .hInt 0)]),
      (2, .dictObj [("location", .ref 1)])], 3⟩ 2 "location" = some (.ref 1) ∧
    val 5 ⟨[(0, .dictObj [("location", .ref 1)]), (1, .dictObj [("x", .hInt 0)])], 2⟩
      (.ref 0) =
      some (.vDict (.cons "location" (.vDict (.cons "x" (.vInt 0) .nil)) .nil)) ∧
    val 5 (mutate ⟨[(0, .dictObj [("location", .ref 1)]), (1, .dictObj [("x", .hInt 0)]),
      (2, .dictObj [("location", .ref 1)])], 3⟩ 1 (.dictObj [("x", .hInt 99)]))
      (.ref 0) =
      some (.vDict (.cons "location" (.vDict (.cons "x" (.vInt 99) .nil)) .nil)) ∧
    PyValue.vDict (.cons "location" (.vDict (.cons "x" (.vInt 0) .nil)) .nil) ≠
      PyValue.vDict (.cons "location" (.vDict (.cons "x" (.vInt 99) .nil)) .nil) :=
  ⟨rfl, rfl, by decide, by decide, by decide⟩

/-- C4 amended: the mapping conversion returns exactly
`{'type': <wire type>, 'params': <params>}`, and the params copy is
isolated at the TOP level only: the copy is a fresh dict object distinct
from the command's own, holding the same entries, and mutating the copy
object itself never changes the command's stored entries (nested values,
however, stay shared — see the counterexample). -/
theorem C4_to_dict_shallow_copy_amended :
    (∀ c : BaseCommand, c.to_dict =
      .vDict (.cons "type" (.vStr c.type) (.cons "params" (.vDict c.params) .nil))) ∧
    (∀ c : CreateBlueprintCommand, c.to_dict =
      .vDict (.cons "type" (.vStr c.type) (.cons "params" (.vDict c.params) .nil))) ∧
    (∀ c : AddComponentToBlueprintCommand, c.to_dict =
      .vDict (.cons "type" (.vStr c.type) (.cons "params" (.vDict c.params) .nil))) ∧
    (∀ c : CompileBlueprintCommand, c.to_dict =
      .vDict (.cons "type" (.vStr c.type) (.cons "params" (.vDict c.params) .nil))) ∧
    (∀ c : SetBlueprintPropertyCommand, c.to_dict =
      .vDict (.cons "type" (.vStr c.type) (.cons "params" (.vDict c.params) .nil))) ∧
    (∀ c : SetStaticMeshPropertiesCommand, c.to_dict =
      .vDict (.cons "type" (.vStr c.type) (.cons "params" (.vDict c.params) .nil))) ∧
    (∀ (h : Heap) (p : Nat) (es : List (String × HValue)), h.WF →
      heapGet h p = some (.dictObj es) →
      ∃ h' p', shallowCopyParams h p = some (h', p') ∧ p' ≠ p ∧
        heapGet h' p' = some (.dictObj es) ∧
        (∀ o : HObj, heapGet (mutate h' p' o) p = heapGet h p)) := by
  refine ⟨fun c => rfl, fun c => rfl, fun c => rfl, fun c => rfl, fun c => rfl,
    fun c => rfl, ?_⟩
  intro h p es hwf hget
  have hp : p < h.next := heapGet_some_lt hwf hget
  refine ⟨(alloc h (.dictObj es)).1, h.next, ?_, by omega, ?_, ?_⟩
  · simp only [shallowCopyParams, hget]
    rfl
  · rw [heapGet_alloc hwf.1]
    simp
  · intro o
    rw [heapGet_mutate_ne o (by omega), heapGet_alloc hwf.1, if_neg (by omega)]

/-- Witness for the amended C4 at a concrete heap. -/
theorem C4_to_dict_shallow_copy_amended_witness :
    (⟨[(0, .dictObj [("x", .hInt 1)])], 1⟩ : Heap).WF ∧
    heapGet ⟨[(0, .dictObj [("x", .hInt 1)])], 1⟩ 0 = some (.dictObj [("x", .hInt 1)]) ∧
    (∃ h' p', shallowCopyParams ⟨[(0, .dictObj [("x", .hInt 1)])], 1⟩ 0 =
        some (h', p') ∧ p' ≠ 0 ∧
      heapGet h' p' = some (.dictObj [("x", .hInt 1)]) ∧
      (∀ o : HObj, heapGet (mutate h' p' o) 0 =
        heapGet ⟨[(0, .dictObj [("x", .hInt 1)])], 1⟩ 0)) :=
  ⟨by decide, by decide,
    C4_to_dict_shallow_copy_amended.2.2.2.2.2.2 _ 0 _ (by decide) (by decide)⟩

/-- C8: `BaseCommand.copy` deep-copies `params` (its net effect on the
duplicate's params is `deepcopy`, i.e. a rebuild of the value tree in
fresh storage), so the duplicate's mapping projection equals the
original's, the original is untouched, and storage is fully independent:
mutating any object of the duplicate's region leaves the original's params
value intact, and mutating any pre-existing object leaves the duplicate's
params value intact. -/
theorem C8_copy_independent_storage (h : Heap) (p f : Nat) (t : PyValue)
    (hwf : h.WF) (hval : val f h (.ref p) = some t) :
    ∃ h' v', copyCmdParams f h p = some (h', v') ∧
      val t.fsize h' v' = some t ∧
      val f h' (.ref p) = some t ∧
      (∀ (a : Nat) (o : HObj), h.next ≤ a →
        val f (mutate h' a o) (.ref p) = some t) ∧
      (∀ (a : Nat) (o : HObj), a < h.next →
        val t.fsize (mutate h' a o) v' = some t) := by
  have hp : p < h.next := val_ref_lt hwf hval
  have spec := allocTree_spec h t hwf
  rcases hT : allocTree h t with ⟨h1, v1⟩
  rw [hT] at spec
  dsimp only at spec
  obtain ⟨sWF, sExt, sRefs, sFresh, sVal⟩ := spec
  refine ⟨h1, v1, ?_, sVal, ?_, ?_, ?_⟩
  · simp [copyCmdParams, deepcopy, hval, hT]
  · rw [(valAll_frame (fun b => b < h.next) h h1
      (fun b hb => heapGet_extends sExt hb) (WF_closedOn hwf) f).1 (.ref p) hp]
    exact hval
  · intro a o ha
    have hag : agreesOn (fun b => b < h.next) h (mutate h1 a o) := by
      intro b hb
      rw [heapGet_mutate_ne o (by omega)]
      exact heapGet_extends sExt hb
    rw [(valAll_frame (fun b => b < h.next) h (mutate h1 a o) hag
      (WF_closedOn hwf) f).1 (.ref p) hp]
    exact hval
  · intro a o ha
    have hag : agreesOn (fun b => h.next ≤ b ∧ b < h1.next) h1 (mutate h1 a o) := by
      intro b hb
      exact heapGet_mutate_ne o (by omega)
    have hcl : closedOn (fun b => h.next ≤ b ∧ b < h1.next) h1 :=
      fun b hb o2 hget => sFresh b hb.1 o2 hget
    rw [(valAll_frame (fun b => h.next ≤ b ∧ b < h1.next) h1 (mutate h1 a o) hag
      hcl t.fsize).1 v1 sRefs]
    exact sVal

/-- Witness for C8 at a concrete command heap. -/
theorem C8_copy_independent_storage_witness :
    (⟨[(0, .dictObj [("x", .hInt 1)])], 1⟩ : Heap).WF ∧
    val 2 ⟨[(0, .dictObj [("x", .hInt 1)])], 1⟩ (.ref 0) =
      some (.vDict (.cons "x" (.vInt 1) .nil)) ∧
    (∃ h' v', copyCmdParams 2 ⟨[(0, .dictObj [("x", .hInt 1)])], 1⟩ 0 = some (h', v') ∧
      val (PyValue.vDict (.cons "x" (.vInt 1) .nil)).fsize h' v' =
        some (.vDict (.cons "x" (.vInt 1) .nil)) ∧
      val 2 h' (.ref 0) = some (.vDict (.cons "x" (.vInt 1) .nil)) ∧
      (∀ (a : Nat) (o : HObj),
        (⟨[(0, .dictObj [("x", .hInt 1)])], 1⟩ : Heap).next ≤ a →
        val 2 (mutate h' a o) (.ref 0) = some (.vDict (.cons "x" (.vInt 1) .nil))) ∧
      (∀ (a : Nat) (o : HObj),
        a < (⟨[(0, .dictObj [("x", .hInt 1)])], 1⟩ : Heap).next →
        val (PyValue.vDict (.cons "x" (.vInt 1) .nil)).fsize (mutate h' a o) v' =
          some (.vDict (.cons "x" (.vInt 1) .nil)))) :=
  ⟨by decide, by decide,
    C8_copy_independent_storage ⟨[(0, .dictObj [("x", .hInt 1)])], 1⟩ 0 2
      (.vDict (.cons "x" (.vInt 1) .nil)) (by decide) (by decide)⟩

/-- C10: caller-supplied extra entries in the initial params mapping
survive construction of every variant, and an entry whose key collides
with a declared field is overwritten by that field's value. -/
theorem C10_extra_entries_survive :
    (∀ (n pc k : String) (v : PyValue) (d : PyDict),
      isBlank n = false → isBlank pc = false → d.serializable = true →
      k ≠ "name" → k ≠ "parent_class" → dictGet d k = some v →
      ∃ c, mkCreateBlueprintCommand n pc (.vDict d) = .ok c ∧
        dictGet c.params k = some v ∧
        dictGet c.params "name" = some (.vStr n) ∧
        dictGet c.params "parent_class" = some (.vStr pc)) ∧
    (∀ (bn ct cn k : String) (v : PyValue) (d : PyDict),
      isBlank bn = false → isBlank ct = false → d.serializable = true →
      k ≠ "blueprint_name" → k ≠ "component_type" → k ≠ "component_name" →
      dictGet d k = some v →
      ∃ c, mkAddComponentToBlueprintCommand bn ct cn (.vDict d) = .ok c ∧
        dictGet c.params k = some v ∧
        dictGet c.params "blueprint_name" = some (.vStr bn) ∧
        dictGet c.params "component_type" = some (.vStr ct) ∧
        dictGet c.params "component_name" = some (.vStr cn)) ∧
    (∀ (bn k : String) (v : PyValue) (d : PyDict),
      d.serializable = true → k ≠ "blueprint_name" → dictGet d k = some v →
      ∃ c, mkCompileBlueprintCommand bn (.vDict d) = .ok c ∧
        dictGet c.params k = some v ∧
        dictGet c.params "blueprint_name" = some (.vStr bn)) ∧
    (∀ (bn pn pt k : String) (pv v : PyValue) (d : PyDict),
      d.serializable = true →
      k ≠ "blueprint_name" → k ≠ "property_name" → k ≠ "property_value" →
      k ≠ "property_type" → dictGet d k = some v →
      ∃ c, mkSetBlueprintPropertyCommand bn pn pv pt (.vDict d) = .ok c ∧
        dictGet c.params k = some v ∧
        dictGet c.params "blueprint_name" = some (.vStr bn) ∧
        dictGet c.params "property_name" = some (.vStr pn) ∧
        dictGet c.params "property_value" = some pv ∧
        dictGet c.params "property_type" = some (.vStr pt)) ∧
    (∀ (bn cn mp k : String) (v : PyValue) (d : PyDict),
      d.serializable = true →
      k ≠ "blueprint_name" → k ≠ "component_name" → k ≠ "mesh_path" →
      dictGet d k = some v →
      ∃ c, mkSetStaticMeshPropertiesCommand bn cn mp none none none (.vDict d) = .ok c ∧
        dictGet c.params k = some v ∧
        dictGet c.params "blueprint_name" = some (.vStr bn) ∧
        dictGet c.params "component_name" = some (.vStr cn) ∧
        dictGet c.params "mesh_path" = some (.vStr mp)) := by
  refine ⟨?_, ?_, ?_, ?_, ?_⟩
  · intro n pc k v d hn hpc hd hk1 hk2 hkv
    have hser : (dictSet (dictSet d "name" (.vStr n)) "parent_class"
        (.vStr pc)).serializable = true :=
      serializable_dictSet _ _ _ (serializable_dictSet _ _ _ hd rfl) rfl
    refine ⟨⟨n, pc, dictSet (dictSet d "name" (.vStr n)) "parent_class" (.vStr pc)⟩,
      ?_, ?_, ?_, ?_⟩
    · simp [mkCreateBlueprintCommand, dictUpdate, hn, hpc, hser]
    · dsimp only
      rw [dictGet_dictSet_ne _ _ _ _ hk2, dictGet_dictSet_ne _ _ _ _ hk1]
      exact hkv
    · dsimp only
      rw [dictGet_dictSet_ne _ _ _ _ (by decide), dictGet_dictSet_self]
    · dsimp only
      rw [dictGet_dictSet_self]
  · intro bn ct cn k v d hbn hct hd hk1 hk2 hk3 hkv
    have hser : (dictSet (dictSet (dictSet d "blueprint_name" (.vStr bn))
        "component_type" (.vStr ct)) "component_name" (.vStr cn)).serializable = true :=
      serializable_dictSet _ _ _
        (serializable_dictSet _ _ _ (serializable_dictSet _ _ _ hd rfl) rfl) rfl
    refine ⟨⟨bn, ct, cn, dictSet (dictSet (dictSet d "blueprint_name" (.vStr bn))
      "component_type" (.vStr ct)) "component_name" (.vStr cn)⟩, ?_, ?_, ?_, ?_, ?_⟩
    · simp [mkAddComponentToBlueprintCommand, dictUpdate, hbn, hct, hser]
    · dsimp only
      rw [dictGet_dictSet_ne _ _ _ _ hk3, dictGet_dictSet_ne _ _ _ _ hk2,
        dictGet_dictSet_ne _ _ _ _ hk1]
      exact hkv
    · dsimp only
      rw [dictGet_dictSet_ne _ _ _ _ (by decide),
        dictGet_dictSet_ne _ _ _ _ (by decide), dictGet_dictSet_self]
    · dsimp only
      rw [dictGet_dictSet_ne _ _ _ _ (by decide), dictGet_dictSet_self]
    · dsimp only
      rw [dictGet_dictSet_self]
  · intro bn k v d hd hk hkv
    refine ⟨⟨bn, dictSet d "blueprint_name" (.vStr bn)⟩, ?_, ?_, ?_⟩
    · simp [mkCompileBlueprintCommand, normParams, dictUpdate, hd]
    · dsimp only
      rw [dictGet_dictSet_ne _ _ _ _ hk]
      exact hkv
    · dsimp only
      rw [dictGet_dictSet_self]
  · intro bn pn pt k pv v d hd hk1 hk2 hk3 hk4 hkv
    refine ⟨⟨bn, pn, pv, pt, dictSet (dictSet (dictSet (dictSet d
      "blueprint_name" (.vStr bn)) "property_name" (.vStr pn))
      "property_value" pv) "property_type" (.vStr pt)⟩, ?_, ?_, ?_, ?_, ?_, ?_⟩
    · simp [mkSetBlueprintPropertyCommand, normParams, dictUpdate, hd]
    · dsimp only
      rw [dictGet_dictSet_ne _ _ _ _ hk4, dictGet_dictSet_ne _ _ _ _ hk3,
        dictGet_dictSet_ne _ _ _ _ hk2, dictGet_dictSet_ne _ _ _ _ hk1]
      exact hkv
    · dsimp only
      rw [dictGet_dictSet_ne _ _ _ _ (by decide),
        dictGet_dictSet_ne _ _ _ _ (by decide),
        dictGet_dictSet_ne _ _ _ _ (by decide), dictGet_dictSet_self]
    · dsimp only
      rw [dictGet_dictSet_ne _ _ _ _ (by decide),
        dictGet_dictSet_ne _ _ _ _ (by decide), dictGet_dictSet_self]
    · dsimp only
      rw [dictGet_dictSet_ne _ _ _ _ (by decide), dictGet_dictSet_self]
    · dsimp only
      rw [dictGet_dictSet_self]
  · intro bn cn mp k v d hd hk1 hk2 hk3 hkv
    refine ⟨⟨bn, cn, mp, none, none, none, dictSet (dictSet (dictSet d
      "blueprint_name" (.vStr bn)) "component_name" (.vStr cn))
      "mesh_path" (.vStr mp)⟩, ?_, ?_, ?_, ?_, ?_⟩
    · simp [mkSetStaticMeshPropertiesCommand, normParams, dictUpdate, hd]
    · dsimp only
      rw [dictGet_dictSet_ne _ _ _ _ hk3, dictGet_dictSet_ne _ _ _ _ hk2,
        dictGet_dictSet_ne _ _ _ _ hk1]
      exact hkv
    · dsimp only
      rw [dictGet_dictSet_ne _ _ _ _ (by decide),
        dictGet_dictSet_ne _ _ _ _ (by decide), dictGet_dictSet_self]
    · dsimp only
      rw [dictGet_dictSet_ne _ _ _ _ (by decide), dictGet_dictSet_self]
    · dsimp only
      rw [dictGet_dictSet_self]

/-- Witness for C10 at concrete inputs (an extra `"extra"` entry and a
colliding `"name"` entry both supplied in the initial mapping). -/
theorem C10_extra_entries_survive_witness :
    isBlank "A" = false ∧ isBlank "/Script/Engine.Actor" = false ∧
    PyDict.serializable (.cons "extra" (.vInt 3) (.cons "name" (.vStr "stale") .nil))
      = true ∧
    dictGet (.cons "extra" (.vInt 3) (.cons "name" (.vStr "stale") .nil)) "extra"
      = some (.vInt 3) ∧
    (∃ c, mkCreateBlueprintCommand "A" "/Script/Engine.Actor"
        (.vDict (.cons "extra" (.vInt 3) (.cons "name" (.vStr "stale") .nil))) = .ok c ∧
      dictGet c.params "extra" = some (.vInt 3) ∧
      dictGet c.params "name" = some (.vStr "A") ∧
      dictGet c.params "parent_class" = some (.vStr "/Script/Engine.Actor")) :=
  ⟨by decide, by decide, by decide, by decide,
    C10_extra_entries_survive.1 "A" "/Script/Engine.Actor" "extra" (.vInt 3)
      (.cons "extra" (.vInt 3) (.cons "name" (.vStr "stale") .nil))
      (by decide) (by decide) (by decide) (by decide) (by decide) (by decide)⟩
